import Mathlib

/-!
Shallow embedding of the per-symbol order book of `src/order_book.py`
(classes `Order`, `Trade`, `OrderBook`) and of the ingress parser
`UDPOrderServer._parse_order` of `src/udp_server.py`.

Modelling conventions:
* Python `float` prices are modelled as `Int` (price ticks); every price
  operation in the source is a comparison or a negation, both of which the
  embedding preserves.
* Python `int` quantities are `Int` (Python integers are signed and the
  parser performs no sign check).
* `time.time()` timestamps are modelled as `Nat` ticks; only their ordering
  is ever used by the source.
* A Python heap of tuples `(price, timestamp, order)` is modelled as a list
  of `Entry` kept sorted by the lexicographic key `(price, timestamp)`:
  `heap[0]` is the head, `heappop` is the tail, `heappush` is ordered
  insertion.  This is observationally faithful whenever the keys on a side
  are pairwise distinct; when two entries share a key CPython's `heapq`
  raises `TypeError` while comparing the third tuple components (the
  `Order` dataclass defines no ordering) — that failure mode is modelled
  separately by `heappushPy` below.
* The Python dict `orders_by_id` is an association list with unique keys;
  `dictSet` replaces, `dictRemove` deletes the (unique) binding.
* Python mutates `Order` objects that are shared between a heap tuple and
  the `orders_by_id` dict; the embedding performs both updates explicitly
  (`dictSetQty` mirrors the aliasing of a partial fill, and the re-`dictSet`
  when a limit remainder rests mirrors `order.quantity = remaining_quantity`
  at order_book.py:220/264 acting on the object stored at line 86).
-/

namespace HftBook

/-- `OrderType` enum of order_book.py:10. -/
inductive OrderType where
  | market
  | limit
  | cancel
deriving DecidableEq, Repr

/-- `OrderSide` enum of order_book.py:16. -/
inductive OrderSide where
  | buy
  | sell
deriving DecidableEq, Repr

/-- `Order` dataclass of order_book.py:21 (the `uuid` default for a missing
id is applied at parse time, see `parse_order`). -/
structure Order where
  order_id : String
  client_id : String
  symbol : String
  side : OrderSide
  order_type : OrderType
  quantity : Int
  price : Option Int
  timestamp : Nat
deriving DecidableEq, Repr

/-- `Trade` dataclass of order_book.py:37.  The auto-generated `trade_id`
and the wall-clock `timestamp` are omitted: no code path of the claims
reads them. -/
structure Trade where
  buy_order_id : String
  sell_order_id : String
  symbol : String
  quantity : Int
  price : Int
deriving DecidableEq, Repr

/-- One element of a side heap: the tuple `(price, timestamp, order)`
pushed at order_book.py:222/265.  For the buy side the stored `price` is
the negated limit price (max-heap trick, line 221). -/
structure Entry where
  price : Int
  timestamp : Nat
  order : Order
deriving DecidableEq, Repr

/-- The `orders_by_id` dict (order_book.py:68), keys unique. -/
abbrev Dict := List (String × Order)

/-- `orders_by_id.get(k)` / `orders_by_id[k]`. -/
def dictGet : Dict → String → Option Order
  | [], _ => none
  | kv :: rest, k => if kv.1 = k then some kv.2 else dictGet rest k

/-- `orders_by_id[k] = v` (replace the unique binding or append). -/
def dictSet : Dict → String → Order → Dict
  | [], k, v => [(k, v)]
  | kv :: rest, k, v => if kv.1 = k then (k, v) :: rest else kv :: dictSet rest k v

/-- `del orders_by_id[k]` (removes the unique binding for `k`). -/
def dictRemove : Dict → String → Dict
  | [], _ => []
  | kv :: rest, k => if kv.1 = k then rest else kv :: dictRemove rest k

/-- Mirrors the aliasing of a partial fill: `best_order.quantity -= n`
(order_book.py:131/165/215/259) mutates the object also referenced from
`orders_by_id`, so the dict binding's quantity changes with it. -/
def dictSetQty : Dict → String → Int → Dict
  | [], _, _ => []
  | kv :: rest, k, q =>
    if kv.1 = k then (k, { kv.2 with quantity := q }) :: rest
    else kv :: dictSetQty rest k q

/-- Comparison of two heap tuples on their `(price, timestamp)` key: the
order in which CPython's `heapq` ranks them when the keys differ. -/
def entryLe (a b : Entry) : Prop :=
  a.price < b.price ∨ (a.price = b.price ∧ a.timestamp ≤ b.timestamp)

instance : DecidableRel entryLe := fun a b => by
  unfold entryLe; infer_instance

instance : IsTotal Entry entryLe where
  total a b := by
    unfold entryLe
    rcases lt_trichotomy a.price b.price with h | h | h
    · exact Or.inl (Or.inl h)
    · rcases Nat.le_total a.timestamp b.timestamp with ht | ht
      · exact Or.inl (Or.inr ⟨h, ht⟩)
      · exact Or.inr (Or.inr ⟨h.symm, ht⟩)
    · exact Or.inr (Or.inl h)

instance : IsTrans Entry entryLe where
  trans a b c hab hbc := by
    unfold entryLe at *
    rcases hab with h1 | ⟨e1, t1⟩
    · rcases hbc with h2 | ⟨e2, _⟩
      · exact Or.inl (h1.trans h2)
      · exact Or.inl (e2 ▸ h1)
    · rcases hbc with h2 | ⟨e2, t2⟩
      · exact Or.inl (e1 ▸ h2)
      · exact Or.inr ⟨e1.trans e2, t1.trans t2⟩

/-- The price guard of the matching while-loops.  `none` is the market
loops (order_book.py:101/135, no price condition); `some t` is the limit
loops, where the source condition `sell_orders[0][0] <= order.price`
(line 184) resp. `-buy_orders[0][0] >= order.price` (line 227) reads, on
the stored key, `entry.price ≤ t` with `t = order.price` resp.
`t = -order.price`. -/
def priceOk : Option Int → Int → Bool
  | none, _ => true
  | some t, p => p ≤ t

/-- Builds the `Trade(...)` record of a single fill.  The aggressor id
lands in the field of its side; the passive entry supplies the other id
and the price.  `neg` records whether the source negates the stored price
back (`true` only at order_book.py:230 in the limit-sell loop; the
market-sell loop, lines 136/150/162, omits the negation). -/
def mkTrade (aggSide : OrderSide) (agg : Order) (e : Entry) (neg : Bool) (q : Int) : Trade :=
  let pr := if neg then -e.price else e.price
  match aggSide with
  | OrderSide.buy => ⟨agg.order_id, e.order.order_id, agg.symbol, q, pr⟩
  | OrderSide.sell => ⟨e.order.order_id, agg.order_id, agg.symbol, q, pr⟩

/-- The matching while-loop shared (up to the parameters) by
`_process_market_order` (order_book.py:101-132 and 135-166) and
`_process_limit_order` (order_book.py:183-216 and 226-260):
while `remaining > 0` and the opposite heap is non-empty and the price
guard holds, fully fill and pop the best entry (deleting it from the id
dict, lines 107-108 etc.) or partially fill it in place (lines 131 etc.).
Returns `(trades, opposite-side heap, dict, remaining_quantity)`. -/
def matchLoop (aggSide : OrderSide) (agg : Order) (thresh : Option Int) (neg : Bool) :
    Int → List Entry → Dict → List Trade × List Entry × Dict × Int
  | remaining, [], dict => ([], [], dict, remaining)
  | remaining, e :: rest, dict =>
    if remaining ≤ 0 then ([], e :: rest, dict, remaining)
    else if priceOk thresh e.price then
      if e.order.quantity ≤ remaining then
        let t := mkTrade aggSide agg e neg e.order.quantity
        let r := matchLoop aggSide agg thresh neg (remaining - e.order.quantity) rest
          (dictRemove dict e.order.order_id)
        (t :: r.1, r.2.1, r.2.2.1, r.2.2.2)
      else
        let q' := e.order.quantity - remaining
        let e' : Entry := ⟨e.price, e.timestamp, { e.order with quantity := q' }⟩
        let t := mkTrade aggSide agg e neg remaining
        ([t], e' :: rest, dictSetQty dict e.order.order_id q', 0)
    else ([], e :: rest, dict, remaining)

/-- `OrderBook` state (order_book.py:52): the two side heaps, the id dict,
the `client_orders` log (flattened to `(client_id, order_id)` pairs), the
trade history and the two counters. -/
structure Book where
  symbol : String
  buy_orders : List Entry
  sell_orders : List Entry
  orders_by_id : Dict
  client_orders : List (String × String)
  trades : List Trade
  total_volume : Int
  total_trades : Nat
deriving DecidableEq, Repr

/-- `OrderBook(symbol)` — the freshly constructed empty book. -/
def emptyBook (symbol : String) : Book :=
  ⟨symbol, [], [], [], [], [], 0, 0⟩

/-- The statistics for-loop closing `_process_market_order` and
`_process_limit_order` (order_book.py:168-172 and 267-271). -/
def recordTrades (b : Book) (ts : List Trade) : Book :=
  ts.foldl
    (fun bk t =>
      { bk with
        trades := bk.trades ++ [t]
        total_volume := bk.total_volume + t.quantity
        total_trades := bk.total_trades + 1 })
    b

/-- `OrderBook._process_limit_order` (order_book.py:176-273). -/
def processLimitOrder (b : Book) (o : Order) : Book × List Trade :=
  let p := o.price.getD 0
  match o.side with
  | OrderSide.buy =>
    let r := matchLoop OrderSide.buy o (some p) false o.quantity b.sell_orders b.orders_by_id
    let b1 := { b with sell_orders := r.2.1, orders_by_id := r.2.2.1 }
    let rem := r.2.2.2
    let b2 :=
      if 0 < rem then
        let o' := { o with quantity := rem }
        { b1 with
          buy_orders := List.orderedInsert entryLe ⟨-p, o.timestamp, o'⟩ b1.buy_orders
          orders_by_id := dictSet b1.orders_by_id o.order_id o' }
      else b1
    (recordTrades b2 r.1, r.1)
  | OrderSide.sell =>
    let r := matchLoop OrderSide.sell o (some (-p)) true o.quantity b.buy_orders b.orders_by_id
    let b1 := { b with buy_orders := r.2.1, orders_by_id := r.2.2.1 }
    let rem := r.2.2.2
    let b2 :=
      if 0 < rem then
        let o' := { o with quantity := rem }
        { b1 with
          sell_orders := List.orderedInsert entryLe ⟨p, o.timestamp, o'⟩ b1.sell_orders
          orders_by_id := dictSet b1.orders_by_id o.order_id o' }
      else b1
    (recordTrades b2 r.1, r.1)

/-- `OrderBook._process_market_order` (order_book.py:94-174).  In the
sell branch the source reads the stored negated buy price at line 136 and
never negates it back, so market-sell trades carry the negated price:
`neg := false` reflects that slip faithfully. -/
def processMarketOrder (b : Book) (o : Order) : Book × List Trade :=
  match o.side with
  | OrderSide.buy =>
    let r := matchLoop OrderSide.buy o none false o.quantity b.sell_orders b.orders_by_id
    (recordTrades { b with sell_orders := r.2.1, orders_by_id := r.2.2.1 } r.1, r.1)
  | OrderSide.sell =>
    let r := matchLoop OrderSide.sell o none false o.quantity b.buy_orders b.orders_by_id
    (recordTrades { b with buy_orders := r.2.1, orders_by_id := r.2.2.1 } r.1, r.1)

/-- The matching loop as run by `_process_limit_order` for a BUY
(order_book.py:183-216): guard `sell_orders[0][0] <= order.price`. -/
def limitLoopB (b : Book) (o : Order) : List Trade × List Entry × Dict × Int :=
  matchLoop OrderSide.buy o (some (o.price.getD 0)) false o.quantity b.sell_orders b.orders_by_id

/-- The matching loop as run by `_process_limit_order` for a SELL
(order_book.py:226-260): guard `-buy_orders[0][0] >= order.price`, trade
price negated back (line 230). -/
def limitLoopS (b : Book) (o : Order) : List Trade × List Entry × Dict × Int :=
  matchLoop OrderSide.sell o (some (-(o.price.getD 0))) true o.quantity b.buy_orders
    b.orders_by_id

/-- The matching loop as run by `_process_market_order` for a BUY
(order_book.py:101-132). -/
def marketLoopB (b : Book) (o : Order) : List Trade × List Entry × Dict × Int :=
  matchLoop OrderSide.buy o none false o.quantity b.sell_orders b.orders_by_id

/-- The matching loop as run by `_process_market_order` for a SELL
(order_book.py:135-166; note the missing price negation). -/
def marketLoopS (b : Book) (o : Order) : List Trade × List Entry × Dict × Int :=
  matchLoop OrderSide.sell o none false o.quantity b.buy_orders b.orders_by_id

/-- The book-update performed by `add_order` before processing a
non-cancel order (order_book.py:86-87). -/
def storeOrder (b : Book) (o : Order) : Book :=
  { b with
    orders_by_id := dictSet b.orders_by_id o.order_id o
    client_orders := b.client_orders ++ [(o.client_id, o.order_id)] }

/-- Removes the first heap element carrying the cancelled id and
re-heapifies (order_book.py:287-298); on the sorted-list model the
re-heapified array is the list with that element erased. -/
def removeById : List Entry → String → List Entry
  | [], _ => []
  | e :: rest, id => if e.order.order_id = id then rest else e :: removeById rest id

/-- `OrderBook._cancel_order` (order_book.py:275-303). -/
def cancelOrder (b : Book) (c : Order) : Book × List Trade :=
  match dictGet b.orders_by_id c.order_id with
  | none => (b, [])
  | some o =>
    let b1 :=
      match o.side with
      | OrderSide.buy => { b with buy_orders := removeById b.buy_orders c.order_id }
      | OrderSide.sell => { b with sell_orders := removeById b.sell_orders c.order_id }
    ({ b1 with orders_by_id := dictRemove b1.orders_by_id c.order_id }, [])

/-- `OrderBook.add_order` (order_book.py:80-92). -/
def addOrder (b : Book) (o : Order) : Book × List Trade :=
  if o.order_type = OrderType.cancel then cancelOrder b o
  else
    let b1 := storeOrder b o
    if o.order_type = OrderType.market then processMarketOrder b1 o
    else processLimitOrder b1 o

/-- `OrderBook.get_best_bid` (order_book.py:305-310). -/
def getBestBid (b : Book) : Option (Int × Int) :=
  match b.buy_orders with
  | [] => none
  | e :: _ => some (-e.price, e.order.quantity)

/-- `OrderBook.get_best_ask` (order_book.py:312-317). -/
def getBestAsk (b : Book) : Option (Int × Int) :=
  match b.sell_orders with
  | [] => none
  | e :: _ => some (e.price, e.order.quantity)

/-- Applies a sequence of requests to a book, keeping the state. -/
def applyOrders (b : Book) (os : List Order) : Book :=
  os.foldl (fun bk o => (addOrder bk o).1) b

/-- Well-formedness at admission (spec §3): strictly positive quantity,
and a present, strictly positive price for a LIMIT order. -/
def wellFormed (o : Order) : Prop :=
  0 < o.quantity ∧
    (o.order_type = OrderType.limit → o.price.isSome = true ∧ 0 < o.price.getD 0)

instance (o : Order) : Decidable (wellFormed o) := by
  unfold wellFormed; infer_instance

/-- Sum of the fill quantities of a list of executions. -/
def sumQty (ts : List Trade) : Int :=
  (ts.map (fun t => t.quantity)).sum

/-- The id stored in a heap entry. -/
def entryId (e : Entry) : String :=
  e.order.order_id

/-- The id of the passive (resting) party of a fill: the side opposite the
aggressor. -/
def passiveId (aggSide : OrderSide) (t : Trade) : String :=
  match aggSide with
  | OrderSide.buy => t.sell_order_id
  | OrderSide.sell => t.buy_order_id

/-- All resting orders of a book, both sides. -/
def restingEntries (b : Book) : List Entry :=
  b.buy_orders ++ b.sell_orders

/-- Spec §3 invariant 2: `best_bid.price < best_ask.price` whenever both
sides are non-empty. -/
def notCrossed (b : Book) : Prop :=
  ∀ pb qb pa qa, getBestBid b = some (pb, qb) → getBestAsk b = some (pa, qa) → pb < pa

/-- The structural invariant of a book state: both side heaps ordered by
their `(price, timestamp)` key, and the book not crossed. -/
def BookInv (b : Book) : Prop :=
  List.Sorted entryLe b.buy_orders ∧ List.Sorted entryLe b.sell_orders ∧ notCrossed b

/-- Spec §3 invariant 4 as claimed: `orders_by_id` is a bijection onto the
resting orders on either side. -/
def idIndexBijective (b : Book) : Prop :=
  ∀ id : String,
    (dictGet b.orders_by_id id).isSome = true ↔ ∃ e ∈ restingEntries b, entryId e = id

/-- The true direction of invariant 4 in the source: every resting order
is indexed. -/
def restingIndexed (b : Book) : Prop :=
  ∀ e ∈ restingEntries b, (dictGet b.orders_by_id (entryId e)).isSome = true

/-- Spec §3 invariant 5: ids on the book are unique across both sides. -/
def restingIdsNodup (b : Book) : Prop :=
  ((restingEntries b).map entryId).Nodup

instance (b : Book) : Decidable (restingIndexed b) := by
  unfold restingIndexed; infer_instance

instance (b : Book) : Decidable (restingIdsNodup b) := by
  unfold restingIdsNodup; infer_instance

/-- Total resting quantity carried by entries with a given id. -/
def qtyOfId (l : List Entry) (id : String) : Int :=
  ((l.filter (fun e => entryId e = id)).map (fun e => e.order.quantity)).sum

/-- The value of the local `remaining_quantity` when the market matching
loop of `_process_market_order` exits (order_book.py:168): the discarded
residue of a market order processed by `add_order`. -/
def marketRemaining (b : Book) (o : Order) : Int :=
  let d := dictSet b.orders_by_id o.order_id o
  match o.side with
  | OrderSide.buy => (matchLoop OrderSide.buy o none false o.quantity b.sell_orders d).2.2.2
  | OrderSide.sell => (matchLoop OrderSide.sell o none false o.quantity b.buy_orders d).2.2.2

/-- Modelled from the spec: `best_ask() → (price, aggregated_qty_at_best)
or ∅` — "aggregates quantity across all resting orders whose price equals
the best price on that side" (spec §4.B).  This definition follows the
spec's words and is compared against `getBestAsk`, the embedding of the
source's `get_best_ask`. -/
def specBestAsk (b : Book) : Option (Int × Int) :=
  match b.sell_orders with
  | [] => none
  | e :: rest =>
    let best := (rest.map (fun x => x.price)).foldl min e.price
    some (best, sumEntryQty (b.sell_orders.filter (fun x => x.price = best)))
where
  sumEntryQty (l : List Entry) : Int := (l.map (fun x => x.order.quantity)).sum

/-! Ingress parser, `UDPOrderServer._parse_order` (udp_server.py:231-257).
The request is modelled after JSON decoding with numeric fields already
typed: `int(...)`/`float(...)` conversion failures raise and are rejected
by the surrounding `except` clause of `_network_loop`, outside this
function. -/

/-- The decoded JSON request dict; `none` marks an absent key. -/
structure RequestData where
  order_id : Option String
  client_id : Option String
  symbol : Option String
  side : Option String
  order_type : Option String
  quantity : Option Int
  price : Option Int
deriving DecidableEq, Repr

/-- Python `str.upper()` as used on the ASCII enum tokens: character-wise
upper-casing. -/
def pyUpper (s : String) : String :=
  ⟨s.data.map Char.toUpper⟩

/-- `OrderSide(s)` on an upper-cased string (udp_server.py:241). -/
def parseSide (s : String) : Option OrderSide :=
  if s = "BUY" then some OrderSide.buy
  else if s = "SELL" then some OrderSide.sell
  else none

/-- `OrderType(s)` on an upper-cased string (udp_server.py:242). -/
def parseType (s : String) : Option OrderType :=
  if s = "MARKET" then some OrderType.market
  else if s = "LIMIT" then some OrderType.limit
  else if s = "CANCEL" then some OrderType.cancel
  else none

/-- Presence of the five required fields checked at udp_server.py:234-237. -/
def requiredOk (d : RequestData) : Bool :=
  d.client_id.isSome && d.symbol.isSome && d.side.isSome && d.order_type.isSome &&
    d.quantity.isSome

/-- `UDPOrderServer._parse_order` (udp_server.py:231-257).  Note the
Python truthiness test `if order_data.get('price')` at line 254: a price
of `0` counts as absent.  A missing `order_id` is replaced by a fresh
uuid (order_book.py:33-34), modelled by a fixed placeholder string. -/
def parseOrder (d : RequestData) : Except String Order :=
  match d.client_id, d.symbol, d.side, d.order_type, d.quantity with
  | some cid, some sym, some sideS, some typeS, some q =>
    match parseSide (pyUpper sideS), parseType (pyUpper typeS) with
    | some side, some ty =>
      Except.ok
        { order_id := d.order_id.getD "uuid4"
          client_id := cid
          symbol := sym
          side := side
          order_type := ty
          quantity := q
          price := match d.price with
            | some p => if p = 0 then none else some p
            | none => none
          timestamp := 0 }
    | _, _ => Except.error "Invalid enum value"
  | _, _, _, _, _ => Except.error "Missing required field"

/-! CPython `heapq.heappush` with its element comparisons made explicit.
The tuples pushed by the book are `(price, timestamp, order)`;
`Order` is a dataclass with `eq=True` and no ordering, so comparing two
tuples whose first two components coincide raises `TypeError`.  The model
returns `Except.error ()` exactly there. -/

/-- Fallback entry for (never reached) out-of-bounds heap reads. -/
def dummyEntry : Entry :=
  ⟨0, 0, ⟨"", "", "", OrderSide.buy, OrderType.limit, 0, none, 0⟩⟩

/-- Python `<` on two heap tuples `(price, timestamp, order)`: positionwise
comparison; when prices and timestamps both coincide the comparison falls
through to the unorderable `Order` values and raises unless they are
equal. -/
def entryLtE (a b : Entry) : Except Unit Bool :=
  if a.price ≠ b.price then Except.ok (decide (a.price < b.price))
  else if a.timestamp ≠ b.timestamp then Except.ok (decide (a.timestamp < b.timestamp))
  else if a.order = b.order then Except.ok false
  else Except.error ()

/-- CPython `heapq._siftdown(heap, 0, pos)` (the loop run by `heappush`):
walk from `pos` toward the root, moving parents down while
`newitem < parent`.  The extra `fuel` argument only drives structural
recursion; the position strictly decreases on every iteration, so with
`fuel` initialised to the starting position the exhaustion branch is
unreachable. -/
def siftdownPy : Nat → List Entry → Nat → Entry → Except Unit (List Entry)
  | _, heap, 0, newitem => Except.ok (heap.set 0 newitem)
  | 0, heap, p + 1, newitem => Except.ok (heap.set (p + 1) newitem)
  | fuel + 1, heap, p + 1, newitem => do
    let parentpos := p / 2
    let parent := heap.getD parentpos dummyEntry
    let lt ← entryLtE newitem parent
    if lt then siftdownPy fuel (heap.set (p + 1) parent) parentpos newitem
    else Except.ok (heap.set (p + 1) newitem)

/-- CPython `heapq.heappush(heap, item)`: append, then sift down from the
last position. -/
def heappushPy (heap : List Entry) (item : Entry) : Except Unit (List Entry) :=
  siftdownPy heap.length (heap ++ [item]) heap.length item

/-! Concrete states used by counterexamples and witnesses. -/

/-- Two resting limit sells at the same price 10000, quantities 5 and 7. -/
def twoSellBook : Book :=
  applyOrders (emptyBook "AAPL")
    [⟨"S1", "c1", "AAPL", OrderSide.sell, OrderType.limit, 5, some 10000, 1⟩,
     ⟨"S2", "c2", "AAPL", OrderSide.sell, OrderType.limit, 7, some 10000, 2⟩]

/-- The book after a single market buy on an empty book. -/
def marketOnlyBook : Book :=
  (addOrder (emptyBook "AAPL")
    ⟨"M1", "c", "AAPL", OrderSide.buy, OrderType.market, 5, none, 1⟩).1

/-- A syntactically complete LIMIT request carrying quantity `0`. -/
def zeroQtyReq : RequestData :=
  ⟨none, some "c", some "AAPL", some "BUY", some "LIMIT", some 0, some 10000⟩

/-- A syntactically complete LIMIT request carrying price `-100`. -/
def negPriceReq : RequestData :=
  ⟨some "X", some "c", some "AAPL", some "SELL", some "LIMIT", some 3, some (-100)⟩

/-- Resting limit sell used by the heap-collision scenario. -/
def tieSell1 : Order :=
  ⟨"S1", "c1", "AAPL", OrderSide.sell, OrderType.limit, 10, some 15000, 7⟩

/-- Incoming limit sell sharing price and timestamp with `tieSell1`. -/
def tieSell2 : Order :=
  ⟨"S2", "c2", "AAPL", OrderSide.sell, OrderType.limit, 5, some 15000, 7⟩

/-! ### Association-list (Python dict) lemmas -/

theorem dictGet_eq_none_of_not_mem (d : Dict) (k : String)
    (h : k ∉ d.map Prod.fst) : dictGet d k = none := by
  induction d with
  | nil => rfl
  | cons kv rest ih =>
    simp only [List.map_cons, List.mem_cons, not_or] at h
    unfold dictGet
    rw [if_neg (fun hk => h.1 hk.symm)]
    exact ih h.2

theorem dictGet_dictRemove_self (d : Dict) (k : String)
    (h : (d.map Prod.fst).Nodup) : dictGet (dictRemove d k) k = none := by
  induction d with
  | nil => rfl
  | cons kv rest ih =>
    rw [List.map_cons, List.nodup_cons] at h
    unfold dictRemove
    by_cases hk : kv.1 = k
    · rw [if_pos hk]
      exact dictGet_eq_none_of_not_mem rest k (hk ▸ h.1)
    · rw [if_neg hk]
      unfold dictGet
      rw [if_neg hk]
      exact ih h.2

theorem dictGet_dictRemove_ne (d : Dict) (k k' : String) (h : k' ≠ k) :
    dictGet (dictRemove d k) k' = dictGet d k' := by
  have hkk' : ¬k = k' := fun he => h he.symm
  induction d with
  | nil => rfl
  | cons kv rest ih =>
    by_cases hk : kv.1 = k
    · have hne : ¬kv.1 = k' := fun he => h (he.symm.trans hk)
      simp [dictRemove, dictGet, hk, hne, hkk']
    · by_cases hk' : kv.1 = k' <;> simp [dictRemove, dictGet, hk, hk', ih, h]

theorem dictGet_dictSet_self (d : Dict) (k : String) (v : Order) :
    dictGet (dictSet d k v) k = some v := by
  induction d with
  | nil => unfold dictSet dictGet; rw [if_pos rfl]
  | cons kv rest ih =>
    unfold dictSet
    by_cases hk : kv.1 = k
    · rw [if_pos hk]; unfold dictGet; rw [if_pos rfl]
    · rw [if_neg hk]; unfold dictGet; rw [if_neg hk]; exact ih

theorem dictGet_dictSet_ne (d : Dict) (k k' : String) (v : Order) (h : k' ≠ k) :
    dictGet (dictSet d k v) k' = dictGet d k' := by
  have hkk' : ¬k = k' := fun he => h he.symm
  induction d with
  | nil => simp [dictSet, dictGet, hkk']
  | cons kv rest ih =>
    by_cases hk : kv.1 = k
    · have hne : ¬kv.1 = k' := fun he => h (he.symm.trans hk)
      simp [dictSet, dictGet, hk, hne, hkk']
    · by_cases hk' : kv.1 = k' <;> simp [dictSet, dictGet, hk, hk', ih, h]

theorem dictGet_dictSet_isSome (d : Dict) (k k' : String) (v : Order)
    (h : (dictGet d k').isSome = true) :
    (dictGet (dictSet d k v) k').isSome = true := by
  by_cases hk : k' = k
  · rw [hk, dictGet_dictSet_self]; rfl
  · rw [dictGet_dictSet_ne d k k' v hk]; exact h

theorem dictGet_dictSetQty_ne (d : Dict) (k k' : String) (q : Int) (h : k' ≠ k) :
    dictGet (dictSetQty d k q) k' = dictGet d k' := by
  have hkk' : ¬k = k' := fun he => h he.symm
  induction d with
  | nil => rfl
  | cons kv rest ih =>
    by_cases hk : kv.1 = k
    · have hne : ¬kv.1 = k' := fun he => h (he.symm.trans hk)
      simp [dictSetQty, dictGet, hk, hne, hkk']
    · by_cases hk' : kv.1 = k' <;> simp [dictSetQty, dictGet, hk, hk', ih, h]

theorem dictGet_dictSetQty_isSome (d : Dict) (k k' : String) (q : Int)
    (h : (dictGet d k').isSome = true) :
    (dictGet (dictSetQty d k q) k').isSome = true := by
  induction d with
  | nil => simp [dictGet] at h
  | cons kv rest ih =>
    by_cases hk : kv.1 = k
    · by_cases hk' : kv.1 = k'
      · have : k = k' := hk.symm.trans hk'
        simp [dictSetQty, dictGet, hk, this]
      · have hne : ¬k = k' := fun he => hk' (hk.trans he)
        simp [dictSetQty, dictGet, hk, hk', hne] at h ⊢
        exact h
    · by_cases hk' : kv.1 = k'
      · have hkk : ¬k' = k := fun he => hk (hk'.trans he)
        simp [dictSetQty, dictGet, hk, hk', hkk]
      · simp [dictSetQty, dictGet, hk, hk'] at h ⊢
        exact ih h

/-! ### Elementary facts about the order of keys -/

theorem entryLe_price {a b : Entry} (h : entryLe a b) : a.price ≤ b.price := by
  rcases h with h | ⟨h, _⟩
  · exact le_of_lt h
  · exact le_of_eq h

/-! ### Lemmas about the matching loop -/

theorem mkTrade_quantity (a : OrderSide) (g : Order) (e : Entry) (n : Bool) (q : Int) :
    (mkTrade a g e n q).quantity = q := by
  cases a <;> rfl

theorem mkTrade_passiveId (a : OrderSide) (g : Order) (e : Entry) (n : Bool) (q : Int) :
    passiveId a (mkTrade a g e n q) = entryId e := by
  cases a <;> rfl

/-- Every entry left on the matched side stems from an entry of the input
side, with the same key and the same order id (a full match pops entries,
a partial match only rewrites the head's quantity). -/
theorem matchLoop_opp_mem (a : OrderSide) (g : Order) (t : Option Int) (n : Bool)
    (rem : Int) (opp : List Entry) (dict : Dict) :
    ∀ e' ∈ (matchLoop a g t n rem opp dict).2.1,
      ∃ e ∈ opp, e'.price = e.price ∧ e'.timestamp = e.timestamp ∧ entryId e' = entryId e := by
  induction opp generalizing rem dict with
  | nil =>
    intro e' he'
    simp [matchLoop] at he'
  | cons e rest ih =>
    intro e' he'
    by_cases h0 : rem ≤ 0
    · refine ⟨e', ?_, rfl, rfl, rfl⟩
      simpa [matchLoop, h0] using he'
    · by_cases h1 : priceOk t e.price
      · by_cases h2 : e.order.quantity ≤ rem
        · have he2 : e' ∈ (matchLoop a g t n (rem - e.order.quantity) rest
              (dictRemove dict e.order.order_id)).2.1 := by
            simpa [matchLoop, h0, h1, h2] using he'
          obtain ⟨e0, hm, h⟩ := ih _ _ e' he2
          exact ⟨e0, List.mem_cons_of_mem e hm, h⟩
        · have he2 : e' = (⟨e.price, e.timestamp,
              { e.order with quantity := e.order.quantity - rem }⟩ : Entry) ∨ e' ∈ rest := by
            simpa [matchLoop, h0, h1, h2] using he'
          rcases he2 with rfl | hm
          · exact ⟨e, List.mem_cons_self e rest, rfl, rfl, rfl⟩
          · exact ⟨e', List.mem_cons_of_mem e hm, rfl, rfl, rfl⟩
      · refine ⟨e', ?_, rfl, rfl, rfl⟩
        simpa [matchLoop, h0, h1] using he'

/-- Matching keeps the matched side sorted by its heap key. -/
theorem matchLoop_sorted (a : OrderSide) (g : Order) (t : Option Int) (n : Bool)
    (rem : Int) (opp : List Entry) (dict : Dict) (hs : List.Sorted entryLe opp) :
    List.Sorted entryLe (matchLoop a g t n rem opp dict).2.1 := by
  induction opp generalizing rem dict with
  | nil => simpa [matchLoop] using hs
  | cons e rest ih =>
    by_cases h0 : rem ≤ 0
    · simpa [matchLoop, h0] using hs
    · by_cases h1 : priceOk t e.price
      · by_cases h2 : e.order.quantity ≤ rem
        · simpa [matchLoop, h0, h1, h2] using ih _ _ hs.of_cons
        · have h3 : List.Sorted entryLe ((⟨e.price, e.timestamp,
              { e.order with quantity := e.order.quantity - rem }⟩ : Entry) :: rest) := by
            rw [List.sorted_cons] at hs ⊢
            exact ⟨fun b hb => hs.1 b hb, hs.2⟩
          simpa [matchLoop, h0, h1, h2] using h3
      · simpa [matchLoop, h0, h1] using hs

/-- Quantity bookkeeping of the loop: the fills plus the final
`remaining_quantity` make up the initial remaining quantity. -/
theorem matchLoop_sum (a : OrderSide) (g : Order) (t : Option Int) (n : Bool)
    (rem : Int) (opp : List Entry) (dict : Dict) :
    sumQty (matchLoop a g t n rem opp dict).1 + (matchLoop a g t n rem opp dict).2.2.2 = rem := by
  induction opp generalizing rem dict with
  | nil => simp [matchLoop, sumQty]
  | cons e rest ih =>
    by_cases h0 : rem ≤ 0
    · simp [matchLoop, h0, sumQty]
    · by_cases h1 : priceOk t e.price
      · by_cases h2 : e.order.quantity ≤ rem
        · have := ih (rem - e.order.quantity) (dictRemove dict e.order.order_id)
          simp [matchLoop, h0, h1, h2, sumQty, mkTrade_quantity] at this ⊢
          omega
        · simp [matchLoop, h0, h1, h2, sumQty, mkTrade_quantity]
      · simp [matchLoop, h0, h1, sumQty]

/-- The final remaining quantity is never negative when the initial one
is not. -/
theorem matchLoop_rem_nonneg (a : OrderSide) (g : Order) (t : Option Int) (n : Bool)
    (rem : Int) (opp : List Entry) (dict : Dict) (h : 0 ≤ rem) :
    0 ≤ (matchLoop a g t n rem opp dict).2.2.2 := by
  induction opp generalizing rem dict with
  | nil => simpa [matchLoop] using h
  | cons e rest ih =>
    by_cases h0 : rem ≤ 0
    · simpa [matchLoop, h0] using h
    · by_cases h1 : priceOk t e.price
      · by_cases h2 : e.order.quantity ≤ rem
        · simpa [matchLoop, h0, h1, h2] using ih (rem - e.order.quantity) _ (by omega)
        · simp [matchLoop, h0, h1, h2]
      · simpa [matchLoop, h0, h1] using h

/-- If the loop exits with remaining quantity still positive, the matched
side is exhausted or its best entry fails the price guard. -/
theorem matchLoop_stop (a : OrderSide) (g : Order) (t : Option Int) (n : Bool)
    (rem : Int) (opp : List Entry) (dict : Dict)
    (h : 0 < (matchLoop a g t n rem opp dict).2.2.2) :
    (matchLoop a g t n rem opp dict).2.1 = [] ∨
      ∃ e tl, (matchLoop a g t n rem opp dict).2.1 = e :: tl ∧ priceOk t e.price = false := by
  induction opp generalizing rem dict with
  | nil => simp [matchLoop]
  | cons e rest ih =>
    by_cases h0 : rem ≤ 0
    · simp [matchLoop, h0] at h
      omega
    · by_cases h1 : priceOk t e.price
      · by_cases h2 : e.order.quantity ≤ rem
        · have h' : 0 < (matchLoop a g t n (rem - e.order.quantity) rest
              (dictRemove dict e.order.order_id)).2.2.2 := by
            simpa [matchLoop, h0, h1, h2] using h
          simpa [matchLoop, h0, h1, h2] using ih _ _ h'
        · simp [matchLoop, h0, h1, h2] at h
      · refine Or.inr ⟨e, rest, ?_, ?_⟩
        · simp [matchLoop, h0, h1]
        · simpa using h1

/-- The passive parties of the returned fills are exactly the leading
entries of the matched side, in order. -/
theorem matchLoop_passive_prefix (a : OrderSide) (g : Order) (t : Option Int) (n : Bool)
    (rem : Int) (opp : List Entry) (dict : Dict) :
    (matchLoop a g t n rem opp dict).1.map (passiveId a) =
      (opp.take (matchLoop a g t n rem opp dict).1.length).map entryId := by
  induction opp generalizing rem dict with
  | nil => simp [matchLoop]
  | cons e rest ih =>
    by_cases h0 : rem ≤ 0
    · simp [matchLoop, h0]
    · by_cases h1 : priceOk t e.price
      · by_cases h2 : e.order.quantity ≤ rem
        · have := ih (rem - e.order.quantity) (dictRemove dict e.order.order_id)
          simp [matchLoop, h0, h1, h2, mkTrade_passiveId, this]
        · simp [matchLoop, h0, h1, h2, mkTrade_passiveId]
      · simp [matchLoop, h0, h1]

/-- Keys untouched by the loop keep their dict binding. -/
theorem matchLoop_dict_untouched (a : OrderSide) (g : Order) (t : Option Int) (n : Bool)
    (rem : Int) (opp : List Entry) (dict : Dict) (k : String) (hk : k ∉ opp.map entryId) :
    dictGet (matchLoop a g t n rem opp dict).2.2.1 k = dictGet dict k := by
  induction opp generalizing rem dict with
  | nil => simp [matchLoop]
  | cons e rest ih =>
    simp only [List.map_cons, List.mem_cons, not_or] at hk
    by_cases h0 : rem ≤ 0
    · simp [matchLoop, h0]
    · by_cases h1 : priceOk t e.price
      · by_cases h2 : e.order.quantity ≤ rem
        · have := ih (rem - e.order.quantity) (dictRemove dict e.order.order_id) hk.2
          simp only [matchLoop, h0, h1, h2, if_true, if_false, if_neg h0, if_pos h1, if_pos h2]
          simp only [this]
          exact dictGet_dictRemove_ne dict (entryId e) k hk.1
        · simp only [matchLoop, if_neg h0, if_pos h1, if_neg h2]
          exact dictGet_dictSetQty_ne dict (entryId e) k _ hk.1
      · simp [matchLoop, h0, h1]

/-- Every entry still resting on the matched side keeps an id-dict
binding (full matches delete exactly the ids they pop; ids are unique on
the side). -/
theorem matchLoop_indexed (a : OrderSide) (g : Order) (t : Option Int) (n : Bool)
    (rem : Int) (opp : List Entry) (dict : Dict)
    (hidx : ∀ e ∈ opp, (dictGet dict (entryId e)).isSome = true)
    (hnd : (opp.map entryId).Nodup) :
    ∀ e' ∈ (matchLoop a g t n rem opp dict).2.1,
      (dictGet (matchLoop a g t n rem opp dict).2.2.1 (entryId e')).isSome = true := by
  induction opp generalizing rem dict with
  | nil =>
    intro e' he'
    simp [matchLoop] at he'
  | cons e rest ih =>
    rw [List.map_cons, List.nodup_cons] at hnd
    intro e' he'
    by_cases h0 : rem ≤ 0
    · have : e' ∈ e :: rest := by simpa [matchLoop, h0] using he'
      simpa [matchLoop, h0] using hidx e' this
    · by_cases h1 : priceOk t e.price
      · by_cases h2 : e.order.quantity ≤ rem
        · have he2 : e' ∈ (matchLoop a g t n (rem - e.order.quantity) rest
              (dictRemove dict e.order.order_id)).2.1 := by
            simpa [matchLoop, h0, h1, h2] using he'
          have hidx' : ∀ e2 ∈ rest, (dictGet (dictRemove dict e.order.order_id)
              (entryId e2)).isSome = true := by
            intro e2 he2'
            have hne : entryId e2 ≠ entryId e :=
              fun he => hnd.1 (he ▸ List.mem_map_of_mem entryId he2')
            rw [dictGet_dictRemove_ne dict e.order.order_id (entryId e2) hne]
            exact hidx e2 (List.mem_cons_of_mem e he2')
          have := ih _ _ hidx' hnd.2 e' he2
          simpa [matchLoop, h0, h1, h2] using this
        · have he2 : e' = (⟨e.price, e.timestamp,
              { e.order with quantity := e.order.quantity - rem }⟩ : Entry) ∨ e' ∈ rest := by
            simpa [matchLoop, h0, h1, h2] using he'
          have hd : (matchLoop a g t n rem (e :: rest) dict).2.2.1 =
              dictSetQty dict (entryId e) (e.order.quantity - rem) := by
            simp [matchLoop, h0, h1, h2]
            rfl
          rw [hd]
          rcases he2 with rfl | hm
          · exact dictGet_dictSetQty_isSome dict (entryId e) (entryId e)
              (e.order.quantity - rem) (hidx e (List.mem_cons_self e rest))
          · have hne : entryId e' ≠ entryId e :=
              fun he => hnd.1 (he ▸ List.mem_map_of_mem entryId hm)
            rw [dictGet_dictSetQty_ne dict (entryId e) (entryId e') _ hne]
            exact hidx e' (List.mem_cons_of_mem e hm)
      · have : e' ∈ e :: rest := by simpa [matchLoop, h0, h1] using he'
        simpa [matchLoop, h0, h1] using hidx e' this

/-- The ids on the matched side after the loop are a tail of the input
ids. -/
theorem matchLoop_opp_drop (a : OrderSide) (g : Order) (t : Option Int) (n : Bool)
    (rem : Int) (opp : List Entry) (dict : Dict) :
    ∃ k, ((matchLoop a g t n rem opp dict).2.1).map entryId = (opp.drop k).map entryId := by
  induction opp generalizing rem dict with
  | nil => exact ⟨0, by simp [matchLoop]⟩
  | cons e rest ih =>
    by_cases h0 : rem ≤ 0
    · exact ⟨0, by simp [matchLoop, h0]⟩
    · by_cases h1 : priceOk t e.price
      · by_cases h2 : e.order.quantity ≤ rem
        · obtain ⟨k, hk⟩ := ih (rem - e.order.quantity) (dictRemove dict e.order.order_id)
          exact ⟨k + 1, by simpa [matchLoop, h0, h1, h2] using hk⟩
        · exact ⟨0, by simp [matchLoop, h0, h1, h2]; rfl⟩
      · exact ⟨0, by simp [matchLoop, h0, h1]⟩

/-- The ids on the matched side after the loop form a sublist of the
input ids. -/
theorem matchLoop_ids_sublist (a : OrderSide) (g : Order) (t : Option Int) (n : Bool)
    (rem : Int) (opp : List Entry) (dict : Dict) :
    List.Sublist (((matchLoop a g t n rem opp dict).2.1).map entryId) (opp.map entryId) := by
  obtain ⟨k, hk⟩ := matchLoop_opp_drop a g t n rem opp dict
  rw [hk]
  exact List.Sublist.map entryId (List.drop_sublist k opp)

/-! ### Unfolding the processing branches -/

theorem recordTrades_fields (b : Book) (ts : List Trade) :
    (recordTrades b ts).buy_orders = b.buy_orders ∧
    (recordTrades b ts).sell_orders = b.sell_orders ∧
    (recordTrades b ts).orders_by_id = b.orders_by_id := by
  induction ts generalizing b with
  | nil => exact ⟨rfl, rfl, rfl⟩
  | cons t ts ih =>
    have h : recordTrades b (t :: ts) =
        recordTrades
          { b with
            trades := b.trades ++ [t]
            total_volume := b.total_volume + t.quantity
            total_trades := b.total_trades + 1 } ts := rfl
    rw [h]
    exact ih _

theorem restingEntries_recordTrades (b : Book) (ts : List Trade) :
    restingEntries (recordTrades b ts) = restingEntries b := by
  unfold restingEntries
  rw [(recordTrades_fields b ts).1, (recordTrades_fields b ts).2.1]

theorem addOrder_limit (b : Book) (o : Order) (h : o.order_type = OrderType.limit) :
    addOrder b o = processLimitOrder (storeOrder b o) o := by
  unfold addOrder
  simp [h]

theorem addOrder_market (b : Book) (o : Order) (h : o.order_type = OrderType.market) :
    addOrder b o = processMarketOrder (storeOrder b o) o := by
  unfold addOrder
  simp [h]

theorem processLimitOrder_buy (b : Book) (o : Order) (h : o.side = OrderSide.buy) :
    processLimitOrder b o =
      (recordTrades
        (if 0 < (limitLoopB b o).2.2.2 then
          { b with
            buy_orders := List.orderedInsert entryLe
              ⟨-(o.price.getD 0), o.timestamp, { o with quantity := (limitLoopB b o).2.2.2 }⟩
              b.buy_orders
            sell_orders := (limitLoopB b o).2.1
            orders_by_id := dictSet (limitLoopB b o).2.2.1 o.order_id
              { o with quantity := (limitLoopB b o).2.2.2 } }
        else
          { b with sell_orders := (limitLoopB b o).2.1,
                   orders_by_id := (limitLoopB b o).2.2.1 })
        (limitLoopB b o).1,
      (limitLoopB b o).1) := by
  unfold processLimitOrder limitLoopB
  rw [h]

theorem processLimitOrder_sell (b : Book) (o : Order) (h : o.side = OrderSide.sell) :
    processLimitOrder b o =
      (recordTrades
        (if 0 < (limitLoopS b o).2.2.2 then
          { b with
            buy_orders := (limitLoopS b o).2.1
            sell_orders := List.orderedInsert entryLe
              ⟨o.price.getD 0, o.timestamp, { o with quantity := (limitLoopS b o).2.2.2 }⟩
              b.sell_orders
            orders_by_id := dictSet (limitLoopS b o).2.2.1 o.order_id
              { o with quantity := (limitLoopS b o).2.2.2 } }
        else
          { b with buy_orders := (limitLoopS b o).2.1,
                   orders_by_id := (limitLoopS b o).2.2.1 })
        (limitLoopS b o).1,
      (limitLoopS b o).1) := by
  unfold processLimitOrder limitLoopS
  rw [h]

theorem processMarketOrder_buy (b : Book) (o : Order) (h : o.side = OrderSide.buy) :
    processMarketOrder b o =
      (recordTrades
        { b with sell_orders := (marketLoopB b o).2.1,
                 orders_by_id := (marketLoopB b o).2.2.1 }
        (marketLoopB b o).1,
      (marketLoopB b o).1) := by
  unfold processMarketOrder marketLoopB
  rw [h]

theorem processMarketOrder_sell (b : Book) (o : Order) (h : o.side = OrderSide.sell) :
    processMarketOrder b o =
      (recordTrades
        { b with buy_orders := (marketLoopS b o).2.1,
                 orders_by_id := (marketLoopS b o).2.2.1 }
        (marketLoopS b o).1,
      (marketLoopS b o).1) := by
  unfold processMarketOrder marketLoopS
  rw [h]

/-! ### Resting quantity bookkeeping -/

theorem qtyOfId_append (l1 l2 : List Entry) (id : String) :
    qtyOfId (l1 ++ l2) id = qtyOfId l1 id + qtyOfId l2 id := by
  simp [qtyOfId, List.filter_append]

theorem qtyOfId_eq_zero (l : List Entry) (id : String) (h : ∀ e ∈ l, entryId e ≠ id) :
    qtyOfId l id = 0 := by
  unfold qtyOfId
  rw [List.filter_eq_nil_iff.mpr (by simpa using h)]
  rfl

theorem qtyOfId_perm {l l' : List Entry} (h : l.Perm l') (id : String) :
    qtyOfId l id = qtyOfId l' id := by
  unfold qtyOfId
  exact ((h.filter _).map _).sum_eq

/-- Nothing on the matched side carries a given id if nothing did
before. -/
theorem matchLoop_no_id (a : OrderSide) (g : Order) (t : Option Int) (n : Bool)
    (rem : Int) (opp : List Entry) (dict : Dict) (id : String)
    (h : ∀ e ∈ opp, entryId e ≠ id) :
    ∀ e' ∈ (matchLoop a g t n rem opp dict).2.1, entryId e' ≠ id := by
  intro e' he'
  obtain ⟨e, he, _, _, hid⟩ := matchLoop_opp_mem a g t n rem opp dict e' he'
  rw [hid]
  exact h e he

theorem qtyOfId_cons (e : Entry) (l : List Entry) (id : String) :
    qtyOfId (e :: l) id =
      (if entryId e = id then e.order.quantity else 0) + qtyOfId l id := by
  by_cases h : entryId e = id <;> simp [qtyOfId, List.filter_cons, h]

theorem qtyOfId_orderedInsert_self (o' : Order) (p : Int) (ts : Nat) (l : List Entry)
    (id : String) (hid : o'.order_id = id) (h : ∀ e ∈ l, entryId e ≠ id) :
    qtyOfId (List.orderedInsert entryLe ⟨p, ts, o'⟩ l) id = o'.quantity := by
  rw [qtyOfId_perm (List.perm_orderedInsert entryLe _ l) id, qtyOfId_cons,
    qtyOfId_eq_zero l id h]
  simp [entryId, hid]

/-! ### C3 — conservation of quantity -/

/-- C3: for every well-formed order processed by `add_order` whose id is
not already resting, the admitted quantity equals the sum of the returned
fills plus what rests on the book under that id (LIMIT), respectively
plus the discarded `remaining_quantity` with nothing resting (MARKET). -/
theorem add_order_quantity_conservation (b : Book) (o : Order)
    (hw : wellFormed o)
    (hfresh : ∀ e ∈ restingEntries b, entryId e ≠ o.order_id) :
    (o.order_type = OrderType.limit →
      o.quantity = sumQty (addOrder b o).2 +
        qtyOfId (restingEntries (addOrder b o).1) o.order_id) ∧
    (o.order_type = OrderType.market →
      o.quantity = sumQty (addOrder b o).2 + marketRemaining b o ∧
        0 ≤ marketRemaining b o ∧
        qtyOfId (restingEntries (addOrder b o).1) o.order_id = 0) := by
  have hfb : ∀ e ∈ b.buy_orders, entryId e ≠ o.order_id :=
    fun e he => hfresh e (List.mem_append_left _ he)
  have hfs : ∀ e ∈ b.sell_orders, entryId e ≠ o.order_id :=
    fun e he => hfresh e (List.mem_append_right _ he)
  constructor
  · intro ht
    rw [addOrder_limit b o ht]
    cases hside : o.side with
    | buy =>
      rw [processLimitOrder_buy (storeOrder b o) o hside]
      have hsum := matchLoop_sum OrderSide.buy o (some (o.price.getD 0)) false o.quantity
        b.sell_orders (storeOrder b o).orders_by_id
      have hnn := matchLoop_rem_nonneg OrderSide.buy o (some (o.price.getD 0)) false
        o.quantity b.sell_orders (storeOrder b o).orders_by_id hw.1.le
      have hz : qtyOfId (limitLoopB (storeOrder b o) o).2.1 o.order_id = 0 :=
        qtyOfId_eq_zero _ _ (matchLoop_no_id OrderSide.buy o (some (o.price.getD 0)) false
          o.quantity b.sell_orders (storeOrder b o).orders_by_id o.order_id hfs)
      by_cases hr : 0 < (limitLoopB (storeOrder b o) o).2.2.2
      · rw [if_pos hr, restingEntries_recordTrades]
        have hre : restingEntries
            { storeOrder b o with
              buy_orders := List.orderedInsert entryLe
                ⟨-(o.price.getD 0), o.timestamp,
                  { o with quantity := (limitLoopB (storeOrder b o) o).2.2.2 }⟩
                (storeOrder b o).buy_orders
              sell_orders := (limitLoopB (storeOrder b o) o).2.1
              orders_by_id := dictSet (limitLoopB (storeOrder b o) o).2.2.1 o.order_id
                { o with quantity := (limitLoopB (storeOrder b o) o).2.2.2 } } =
            List.orderedInsert entryLe
              ⟨-(o.price.getD 0), o.timestamp,
                { o with quantity := (limitLoopB (storeOrder b o) o).2.2.2 }⟩
              b.buy_orders ++ (limitLoopB (storeOrder b o) o).2.1 := rfl
        rw [hre, qtyOfId_append, hz,
          qtyOfId_orderedInsert_self
            { o with quantity := (limitLoopB (storeOrder b o) o).2.2.2 }
            (-(o.price.getD 0)) o.timestamp b.buy_orders o.order_id rfl hfb]
        have hq : ({ o with quantity := (limitLoopB (storeOrder b o) o).2.2.2 } :
            Order).quantity = (limitLoopB (storeOrder b o) o).2.2.2 := rfl
        have hL : (limitLoopB (storeOrder b o) o).2.2.2 = (matchLoop OrderSide.buy o
            (some (o.price.getD 0)) false o.quantity b.sell_orders
            (storeOrder b o).orders_by_id).2.2.2 := rfl
        have hT : sumQty (limitLoopB (storeOrder b o) o).1 = sumQty (matchLoop OrderSide.buy o
            (some (o.price.getD 0)) false o.quantity b.sell_orders
            (storeOrder b o).orders_by_id).1 := rfl
        dsimp only
        omega
      · rw [if_neg hr, restingEntries_recordTrades]
        have hre : restingEntries
            { storeOrder b o with
              sell_orders := (limitLoopB (storeOrder b o) o).2.1
              orders_by_id := (limitLoopB (storeOrder b o) o).2.2.1 } =
            b.buy_orders ++ (limitLoopB (storeOrder b o) o).2.1 := rfl
        rw [hre, qtyOfId_append, hz, qtyOfId_eq_zero b.buy_orders o.order_id hfb]
        have hL : (limitLoopB (storeOrder b o) o).2.2.2 = (matchLoop OrderSide.buy o
            (some (o.price.getD 0)) false o.quantity b.sell_orders
            (storeOrder b o).orders_by_id).2.2.2 := rfl
        have hT : sumQty (limitLoopB (storeOrder b o) o).1 = sumQty (matchLoop OrderSide.buy o
            (some (o.price.getD 0)) false o.quantity b.sell_orders
            (storeOrder b o).orders_by_id).1 := rfl
        dsimp only
        omega
    | sell =>
      rw [processLimitOrder_sell (storeOrder b o) o hside]
      have hsum := matchLoop_sum OrderSide.sell o (some (-(o.price.getD 0))) true o.quantity
        b.buy_orders (storeOrder b o).orders_by_id
      have hnn := matchLoop_rem_nonneg OrderSide.sell o (some (-(o.price.getD 0))) true
        o.quantity b.buy_orders (storeOrder b o).orders_by_id hw.1.le
      have hz : qtyOfId (limitLoopS (storeOrder b o) o).2.1 o.order_id = 0 :=
        qtyOfId_eq_zero _ _ (matchLoop_no_id OrderSide.sell o (some (-(o.price.getD 0))) true
          o.quantity b.buy_orders (storeOrder b o).orders_by_id o.order_id hfb)
      by_cases hr : 0 < (limitLoopS (storeOrder b o) o).2.2.2
      · rw [if_pos hr, restingEntries_recordTrades]
        have hre : restingEntries
            { storeOrder b o with
              buy_orders := (limitLoopS (storeOrder b o) o).2.1
              sell_orders := List.orderedInsert entryLe
                ⟨o.price.getD 0, o.timestamp,
                  { o with quantity := (limitLoopS (storeOrder b o) o).2.2.2 }⟩
                (storeOrder b o).sell_orders
              orders_by_id := dictSet (limitLoopS (storeOrder b o) o).2.2.1 o.order_id
                { o with quantity := (limitLoopS (storeOrder b o) o).2.2.2 } } =
            (limitLoopS (storeOrder b o) o).2.1 ++ List.orderedInsert entryLe
              ⟨o.price.getD 0, o.timestamp,
                { o with quantity := (limitLoopS (storeOrder b o) o).2.2.2 }⟩
              b.sell_orders := rfl
        rw [hre, qtyOfId_append, hz,
          qtyOfId_orderedInsert_self
            { o with quantity := (limitLoopS (storeOrder b o) o).2.2.2 }
            (o.price.getD 0) o.timestamp b.sell_orders o.order_id rfl hfs]
        have hq : ({ o with quantity := (limitLoopS (storeOrder b o) o).2.2.2 } :
            Order).quantity = (limitLoopS (storeOrder b o) o).2.2.2 := rfl
        have hL : (limitLoopS (storeOrder b o) o).2.2.2 = (matchLoop OrderSide.sell o
            (some (-(o.price.getD 0))) true o.quantity b.buy_orders
            (storeOrder b o).orders_by_id).2.2.2 := rfl
        have hT : sumQty (limitLoopS (storeOrder b o) o).1 = sumQty (matchLoop OrderSide.sell o
            (some (-(o.price.getD 0))) true o.quantity b.buy_orders
            (storeOrder b o).orders_by_id).1 := rfl
        dsimp only
        omega
      · rw [if_neg hr, restingEntries_recordTrades]
        have hre : restingEntries
            { storeOrder b o with
              buy_orders := (limitLoopS (storeOrder b o) o).2.1
              orders_by_id := (limitLoopS (storeOrder b o) o).2.2.1 } =
            (limitLoopS (storeOrder b o) o).2.1 ++ b.sell_orders := rfl
        rw [hre, qtyOfId_append, hz, qtyOfId_eq_zero b.sell_orders o.order_id hfs]
        have hL : (limitLoopS (storeOrder b o) o).2.2.2 = (matchLoop OrderSide.sell o
            (some (-(o.price.getD 0))) true o.quantity b.buy_orders
            (storeOrder b o).orders_by_id).2.2.2 := rfl
        have hT : sumQty (limitLoopS (storeOrder b o) o).1 = sumQty (matchLoop OrderSide.sell o
            (some (-(o.price.getD 0))) true o.quantity b.buy_orders
            (storeOrder b o).orders_by_id).1 := rfl
        dsimp only
        omega
  · intro ht
    rw [addOrder_market b o ht]
    cases hside : o.side with
    | buy =>
      rw [processMarketOrder_buy (storeOrder b o) o hside]
      have hmr : marketRemaining b o = (marketLoopB (storeOrder b o) o).2.2.2 := by
        unfold marketRemaining
        rw [hside]
        rfl
      have hsum := matchLoop_sum OrderSide.buy o none false o.quantity
        b.sell_orders (storeOrder b o).orders_by_id
      have hnn := matchLoop_rem_nonneg OrderSide.buy o none false o.quantity
        b.sell_orders (storeOrder b o).orders_by_id hw.1.le
      have hz : qtyOfId (marketLoopB (storeOrder b o) o).2.1 o.order_id = 0 :=
        qtyOfId_eq_zero _ _ (matchLoop_no_id OrderSide.buy o none false
          o.quantity b.sell_orders (storeOrder b o).orders_by_id o.order_id hfs)
      rw [restingEntries_recordTrades, hmr]
      have hre : restingEntries
          { storeOrder b o with
            sell_orders := (marketLoopB (storeOrder b o) o).2.1
            orders_by_id := (marketLoopB (storeOrder b o) o).2.2.1 } =
          b.buy_orders ++ (marketLoopB (storeOrder b o) o).2.1 := rfl
      rw [hre, qtyOfId_append, hz, qtyOfId_eq_zero b.buy_orders o.order_id hfb]
      have hL : (marketLoopB (storeOrder b o) o).2.2.2 = (matchLoop OrderSide.buy o
          none false o.quantity b.sell_orders (storeOrder b o).orders_by_id).2.2.2 := rfl
      have hT : sumQty (marketLoopB (storeOrder b o) o).1 = sumQty (matchLoop OrderSide.buy o
          none false o.quantity b.sell_orders (storeOrder b o).orders_by_id).1 := rfl
      dsimp only
      refine ⟨by omega, by omega, by omega⟩
    | sell =>
      rw [processMarketOrder_sell (storeOrder b o) o hside]
      have hmr : marketRemaining b o = (marketLoopS (storeOrder b o) o).2.2.2 := by
        unfold marketRemaining
        rw [hside]
        rfl
      have hsum := matchLoop_sum OrderSide.sell o none false o.quantity
        b.buy_orders (storeOrder b o).orders_by_id
      have hnn := matchLoop_rem_nonneg OrderSide.sell o none false o.quantity
        b.buy_orders (storeOrder b o).orders_by_id hw.1.le
      have hz : qtyOfId (marketLoopS (storeOrder b o) o).2.1 o.order_id = 0 :=
        qtyOfId_eq_zero _ _ (matchLoop_no_id OrderSide.sell o none false
          o.quantity b.buy_orders (storeOrder b o).orders_by_id o.order_id hfb)
      rw [restingEntries_recordTrades, hmr]
      have hre : restingEntries
          { storeOrder b o with
            buy_orders := (marketLoopS (storeOrder b o) o).2.1
            orders_by_id := (marketLoopS (storeOrder b o) o).2.2.1 } =
          (marketLoopS (storeOrder b o) o).2.1 ++ b.sell_orders := rfl
      rw [hre, qtyOfId_append, hz, qtyOfId_eq_zero b.sell_orders o.order_id hfs]
      have hL : (marketLoopS (storeOrder b o) o).2.2.2 = (matchLoop OrderSide.sell o
          none false o.quantity b.buy_orders (storeOrder b o).orders_by_id).2.2.2 := rfl
      have hT : sumQty (marketLoopS (storeOrder b o) o).1 = sumQty (matchLoop OrderSide.sell o
          none false o.quantity b.buy_orders (storeOrder b o).orders_by_id).1 := rfl
      dsimp only
      refine ⟨by omega, by omega, by omega⟩

/-- Witness for `add_order_quantity_conservation`: a limit buy for 6 lots
against the two-sell book (5 resting at the best price) fills 5 and rests
1. -/
theorem add_order_quantity_conservation_witness :
    (⟨"B9", "c", "AAPL", OrderSide.buy, OrderType.limit, 6, some 10000, 5⟩ : Order).quantity =
      sumQty (addOrder twoSellBook
        ⟨"B9", "c", "AAPL", OrderSide.buy, OrderType.limit, 6, some 10000, 5⟩).2 +
      qtyOfId (restingEntries (addOrder twoSellBook
        ⟨"B9", "c", "AAPL", OrderSide.buy, OrderType.limit, 6, some 10000, 5⟩).1) "B9" :=
  (add_order_quantity_conservation twoSellBook
    ⟨"B9", "c", "AAPL", OrderSide.buy, OrderType.limit, 6, some 10000, 5⟩
    (by decide) (by decide)).1 rfl

/-! ### C7 — market orders never rest -/

/-- C7: after processing a MARKET order whose id is not already resting
(ids are unique), no resting order on either side carries that id: the
unfilled remainder is discarded, never rested. -/
theorem market_order_no_residue (b : Book) (o : Order)
    (ht : o.order_type = OrderType.market)
    (hfresh : ∀ e ∈ restingEntries b, entryId e ≠ o.order_id) :
    ∀ e ∈ restingEntries (addOrder b o).1, entryId e ≠ o.order_id := by
  have hfb : ∀ e ∈ b.buy_orders, entryId e ≠ o.order_id :=
    fun e he => hfresh e (List.mem_append_left _ he)
  have hfs : ∀ e ∈ b.sell_orders, entryId e ≠ o.order_id :=
    fun e he => hfresh e (List.mem_append_right _ he)
  rw [addOrder_market b o ht]
  cases hside : o.side with
  | buy =>
    rw [processMarketOrder_buy (storeOrder b o) o hside]
    intro e he
    rw [restingEntries_recordTrades] at he
    have hre : restingEntries
        { storeOrder b o with
          sell_orders := (marketLoopB (storeOrder b o) o).2.1
          orders_by_id := (marketLoopB (storeOrder b o) o).2.2.1 } =
        b.buy_orders ++ (marketLoopB (storeOrder b o) o).2.1 := rfl
    rw [hre] at he
    rcases List.mem_append.mp he with h1 | h2
    · exact hfb e h1
    · exact matchLoop_no_id OrderSide.buy o none false o.quantity b.sell_orders
        (storeOrder b o).orders_by_id o.order_id hfs e h2
  | sell =>
    rw [processMarketOrder_sell (storeOrder b o) o hside]
    intro e he
    rw [restingEntries_recordTrades] at he
    have hre : restingEntries
        { storeOrder b o with
          buy_orders := (marketLoopS (storeOrder b o) o).2.1
          orders_by_id := (marketLoopS (storeOrder b o) o).2.2.1 } =
        (marketLoopS (storeOrder b o) o).2.1 ++ b.sell_orders := rfl
    rw [hre] at he
    rcases List.mem_append.mp he with h1 | h2
    · exact matchLoop_no_id OrderSide.sell o none false o.quantity b.buy_orders
        (storeOrder b o).orders_by_id o.order_id hfb e h1
    · exact hfs e h2

/-- Witness for `market_order_no_residue`: after a market buy for 3 lots
against the two-sell book, the partially filled sell still resting (2
lots left) does not carry the market order's id. -/
theorem market_order_no_residue_witness :
    entryId ⟨10000, 1,
      ⟨"S1", "c1", "AAPL", OrderSide.sell, OrderType.limit, 2, some 10000, 1⟩⟩ ≠ "M7" :=
  market_order_no_residue twoSellBook
    ⟨"M7", "c", "AAPL", OrderSide.buy, OrderType.market, 3, none, 9⟩ rfl (by decide)
    ⟨10000, 1, ⟨"S1", "c1", "AAPL", OrderSide.sell, OrderType.limit, 2, some 10000, 1⟩⟩
    (by decide)

/-! ### C5 — preservation of the indexed-resting relation -/

/-- Running the matching loop against one side preserves: every entry
still resting on that side is indexed, every entry of the opposite
(untouched) side is still indexed, and the resting ids of both sides stay
pairwise distinct. -/
theorem loop_preserves_index (a : OrderSide) (g : Order) (t : Option Int) (n : Bool)
    (rem : Int) (active untouched : List Entry) (d0 : Dict)
    (hia : ∀ e ∈ active, (dictGet d0 (entryId e)).isSome = true)
    (hiu : ∀ e ∈ untouched, (dictGet d0 (entryId e)).isSome = true)
    (hna : (active.map entryId).Nodup)
    (hnu : (untouched.map entryId).Nodup)
    (hdisj : List.Disjoint (untouched.map entryId) (active.map entryId)) :
    (∀ e ∈ (matchLoop a g t n rem active d0).2.1,
      (dictGet (matchLoop a g t n rem active d0).2.2.1 (entryId e)).isSome = true) ∧
    (∀ e ∈ untouched,
      (dictGet (matchLoop a g t n rem active d0).2.2.1 (entryId e)).isSome = true) ∧
    (untouched.map entryId ++ ((matchLoop a g t n rem active d0).2.1).map entryId).Nodup := by
  refine ⟨matchLoop_indexed a g t n rem active d0 hia hna, ?_, ?_⟩
  · intro e he
    rw [matchLoop_dict_untouched a g t n rem active d0 (entryId e)
      (fun hm => hdisj (List.mem_map_of_mem entryId he) hm)]
    exact hiu e he
  · rw [List.nodup_append]
    refine ⟨hnu, (matchLoop_ids_sublist a g t n rem active d0).nodup hna, ?_⟩
    intro x hxu hxa
    exact hdisj hxu ((matchLoop_ids_sublist a g t n rem active d0).subset hxa)

/-- C5 amended: on a book where every resting order is indexed and
resting ids are unique, any non-cancel `add_order` with a fresh id keeps
every resting order indexed and resting ids unique.  (The converse
inclusion of the claimed bijection fails: `orders_by_id` additionally
retains fully-filled limit orders and market orders, see the
counterexample.) -/
theorem resting_orders_indexed_preserved (b : Book) (o : Order)
    (h1 : restingIndexed b) (h2 : restingIdsNodup b)
    (hty : o.order_type ≠ OrderType.cancel)
    (hfresh : ∀ e ∈ restingEntries b, entryId e ≠ o.order_id) :
    restingIndexed (addOrder b o).1 ∧ restingIdsNodup (addOrder b o).1 := by
  have hfb : ∀ e ∈ b.buy_orders, entryId e ≠ o.order_id :=
    fun e he => hfresh e (List.mem_append_left _ he)
  have hfs : ∀ e ∈ b.sell_orders, entryId e ≠ o.order_id :=
    fun e he => hfresh e (List.mem_append_right _ he)
  have h2' := h2
  unfold restingIdsNodup restingEntries at h2'
  rw [List.map_append, List.nodup_append] at h2'
  obtain ⟨hnb, hns, hdisj⟩ := h2'
  have hib : ∀ e ∈ b.buy_orders,
      (dictGet (storeOrder b o).orders_by_id (entryId e)).isSome = true :=
    fun e he => dictGet_dictSet_isSome b.orders_by_id o.order_id (entryId e) o
      (h1 e (List.mem_append_left _ he))
  have his : ∀ e ∈ b.sell_orders,
      (dictGet (storeOrder b o).orders_by_id (entryId e)).isSome = true :=
    fun e he => dictGet_dictSet_isSome b.orders_by_id o.order_id (entryId e) o
      (h1 e (List.mem_append_right _ he))
  cases hot : o.order_type with
  | cancel => exact absurd hot hty
  | market =>
    rw [addOrder_market b o hot]
    cases hside : o.side with
    | buy =>
      rw [processMarketOrder_buy (storeOrder b o) o hside]
      have hLB : marketLoopB (storeOrder b o) o = matchLoop OrderSide.buy o none false
          o.quantity b.sell_orders (storeOrder b o).orders_by_id := rfl
      obtain ⟨hA, hU, hN⟩ := loop_preserves_index OrderSide.buy o none false o.quantity
        b.sell_orders b.buy_orders (storeOrder b o).orders_by_id his hib hns hnb hdisj
      constructor
      · intro e he
        rw [restingEntries_recordTrades] at he
        have hre : restingEntries
            { storeOrder b o with
              sell_orders := (marketLoopB (storeOrder b o) o).2.1
              orders_by_id := (marketLoopB (storeOrder b o) o).2.2.1 } =
            b.buy_orders ++ (marketLoopB (storeOrder b o) o).2.1 := rfl
        rw [hre] at he
        have hdict : (recordTrades
            { storeOrder b o with
              sell_orders := (marketLoopB (storeOrder b o) o).2.1
              orders_by_id := (marketLoopB (storeOrder b o) o).2.2.1 }
            (marketLoopB (storeOrder b o) o).1).orders_by_id =
            (marketLoopB (storeOrder b o) o).2.2.1 := (recordTrades_fields _ _).2.2
        rw [hdict, hLB]
        rw [hLB] at he
        rcases List.mem_append.mp he with h | h
        · exact hU e h
        · exact hA e h
      · unfold restingIdsNodup
        rw [restingEntries_recordTrades]
        have hre : restingEntries
            { storeOrder b o with
              sell_orders := (marketLoopB (storeOrder b o) o).2.1
              orders_by_id := (marketLoopB (storeOrder b o) o).2.2.1 } =
            b.buy_orders ++ (marketLoopB (storeOrder b o) o).2.1 := rfl
        rw [hre, List.map_append, hLB]
        exact hN
    | sell =>
      rw [processMarketOrder_sell (storeOrder b o) o hside]
      have hLB : marketLoopS (storeOrder b o) o = matchLoop OrderSide.sell o none false
          o.quantity b.buy_orders (storeOrder b o).orders_by_id := rfl
      obtain ⟨hA, hU, hN⟩ := loop_preserves_index OrderSide.sell o none false o.quantity
        b.buy_orders b.sell_orders (storeOrder b o).orders_by_id hib his hnb hns
        hdisj.symm
      constructor
      · intro e he
        rw [restingEntries_recordTrades] at he
        have hre : restingEntries
            { storeOrder b o with
              buy_orders := (marketLoopS (storeOrder b o) o).2.1
              orders_by_id := (marketLoopS (storeOrder b o) o).2.2.1 } =
            (marketLoopS (storeOrder b o) o).2.1 ++ b.sell_orders := rfl
        rw [hre] at he
        have hdict : (recordTrades
            { storeOrder b o with
              buy_orders := (marketLoopS (storeOrder b o) o).2.1
              orders_by_id := (marketLoopS (storeOrder b o) o).2.2.1 }
            (marketLoopS (storeOrder b o) o).1).orders_by_id =
            (marketLoopS (storeOrder b o) o).2.2.1 := (recordTrades_fields _ _).2.2
        rw [hdict, hLB]
        rw [hLB] at he
        rcases List.mem_append.mp he with h | h
        · exact hA e h
        · exact hU e h
      · unfold restingIdsNodup
        rw [restingEntries_recordTrades]
        have hre : restingEntries
            { storeOrder b o with
              buy_orders := (marketLoopS (storeOrder b o) o).2.1
              orders_by_id := (marketLoopS (storeOrder b o) o).2.2.1 } =
            (marketLoopS (storeOrder b o) o).2.1 ++ b.sell_orders := rfl
        rw [hre, List.map_append, hLB]
        exact (List.perm_append_comm).nodup_iff.mp hN
  | limit =>
    rw [addOrder_limit b o hot]
    cases hside : o.side with
    | buy =>
      rw [processLimitOrder_buy (storeOrder b o) o hside]
      have hLB : limitLoopB (storeOrder b o) o = matchLoop OrderSide.buy o
          (some (o.price.getD 0)) false o.quantity b.sell_orders
          (storeOrder b o).orders_by_id := rfl
      obtain ⟨hA, hU, hN⟩ := loop_preserves_index OrderSide.buy o (some (o.price.getD 0))
        false o.quantity b.sell_orders b.buy_orders (storeOrder b o).orders_by_id
        his hib hns hnb hdisj
      have hAid : ∀ e ∈ (matchLoop OrderSide.buy o (some (o.price.getD 0)) false o.quantity
          b.sell_orders (storeOrder b o).orders_by_id).2.1, entryId e ≠ o.order_id :=
        matchLoop_no_id OrderSide.buy o (some (o.price.getD 0)) false o.quantity
          b.sell_orders (storeOrder b o).orders_by_id o.order_id hfs
      by_cases hr : 0 < (limitLoopB (storeOrder b o) o).2.2.2
      · rw [if_pos hr]
        constructor
        · intro e he
          rw [restingEntries_recordTrades] at he
          have hre : restingEntries
              { storeOrder b o with
                buy_orders := List.orderedInsert entryLe
                  ⟨-(o.price.getD 0), o.timestamp,
                    { o with quantity := (limitLoopB (storeOrder b o) o).2.2.2 }⟩
                  (storeOrder b o).buy_orders
                sell_orders := (limitLoopB (storeOrder b o) o).2.1
                orders_by_id := dictSet (limitLoopB (storeOrder b o) o).2.2.1 o.order_id
                  { o with quantity := (limitLoopB (storeOrder b o) o).2.2.2 } } =
              List.orderedInsert entryLe
                ⟨-(o.price.getD 0), o.timestamp,
                  { o with quantity := (limitLoopB (storeOrder b o) o).2.2.2 }⟩
                b.buy_orders ++ (limitLoopB (storeOrder b o) o).2.1 := rfl
          rw [hre] at he
          have hdict : (recordTrades
              { storeOrder b o with
                buy_orders := List.orderedInsert entryLe
                  ⟨-(o.price.getD 0), o.timestamp,
                    { o with quantity := (limitLoopB (storeOrder b o) o).2.2.2 }⟩
                  (storeOrder b o).buy_orders
                sell_orders := (limitLoopB (storeOrder b o) o).2.1
                orders_by_id := dictSet (limitLoopB (storeOrder b o) o).2.2.1 o.order_id
                  { o with quantity := (limitLoopB (storeOrder b o) o).2.2.2 } }
              (limitLoopB (storeOrder b o) o).1).orders_by_id =
              dictSet (limitLoopB (storeOrder b o) o).2.2.1 o.order_id
                { o with quantity := (limitLoopB (storeOrder b o) o).2.2.2 } :=
            (recordTrades_fields _ _).2.2
          rw [hdict]
          rcases List.mem_append.mp he with h | h
          · rcases (List.mem_orderedInsert entryLe).mp h with rfl | h'
            · exact (by rw [dictGet_dictSet_self]; rfl : (dictGet (dictSet
                (limitLoopB (storeOrder b o) o).2.2.1 o.order_id
                { o with quantity := (limitLoopB (storeOrder b o) o).2.2.2 })
                o.order_id).isSome = true)
            · exact dictGet_dictSet_isSome _ _ _ _ (by rw [← hLB] at hU; exact hU e h')
          · exact dictGet_dictSet_isSome _ _ _ _ (by rw [← hLB] at hA; exact hA e h)
        · unfold restingIdsNodup
          rw [restingEntries_recordTrades]
          have hre : restingEntries
              { storeOrder b o with
                buy_orders := List.orderedInsert entryLe
                  ⟨-(o.price.getD 0), o.timestamp,
                    { o with quantity := (limitLoopB (storeOrder b o) o).2.2.2 }⟩
                  (storeOrder b o).buy_orders
                sell_orders := (limitLoopB (storeOrder b o) o).2.1
                orders_by_id := dictSet (limitLoopB (storeOrder b o) o).2.2.1 o.order_id
                  { o with quantity := (limitLoopB (storeOrder b o) o).2.2.2 } } =
              List.orderedInsert entryLe
                ⟨-(o.price.getD 0), o.timestamp,
                  { o with quantity := (limitLoopB (storeOrder b o) o).2.2.2 }⟩
                b.buy_orders ++ (limitLoopB (storeOrder b o) o).2.1 := rfl
          rw [hre]
          have hperm : (List.orderedInsert entryLe
              ⟨-(o.price.getD 0), o.timestamp,
                { o with quantity := (limitLoopB (storeOrder b o) o).2.2.2 }⟩
              b.buy_orders ++ (limitLoopB (storeOrder b o) o).2.1).Perm
              ((⟨-(o.price.getD 0), o.timestamp,
                { o with quantity := (limitLoopB (storeOrder b o) o).2.2.2 }⟩ : Entry) ::
                (b.buy_orders ++ (limitLoopB (storeOrder b o) o).2.1)) :=
            (List.perm_orderedInsert entryLe _ b.buy_orders).append_right _
          rw [(hperm.map entryId).nodup_iff]
          rw [List.map_cons, List.nodup_cons, List.map_append]
          constructor
          · intro hmem
            rcases List.mem_append.mp hmem with h | h
            · obtain ⟨e, he, hid⟩ := List.mem_map.mp h
              exact hfb e he hid
            · obtain ⟨e, he, hid⟩ := List.mem_map.mp h
              rw [hLB] at he
              exact hAid e he hid
          · rw [hLB]
            exact hN
      · rw [if_neg hr]
        constructor
        · intro e he
          rw [restingEntries_recordTrades] at he
          have hre : restingEntries
              { storeOrder b o with
                sell_orders := (limitLoopB (storeOrder b o) o).2.1
                orders_by_id := (limitLoopB (storeOrder b o) o).2.2.1 } =
              b.buy_orders ++ (limitLoopB (storeOrder b o) o).2.1 := rfl
          rw [hre] at he
          have hdict : (recordTrades
              { storeOrder b o with
                sell_orders := (limitLoopB (storeOrder b o) o).2.1
                orders_by_id := (limitLoopB (storeOrder b o) o).2.2.1 }
              (limitLoopB (storeOrder b o) o).1).orders_by_id =
              (limitLoopB (storeOrder b o) o).2.2.1 := (recordTrades_fields _ _).2.2
          rw [hdict, hLB]
          rw [hLB] at he
          rcases List.mem_append.mp he with h | h
          · exact hU e h
          · exact hA e h
        · unfold restingIdsNodup
          rw [restingEntries_recordTrades]
          have hre : restingEntries
              { storeOrder b o with
                sell_orders := (limitLoopB (storeOrder b o) o).2.1
                orders_by_id := (limitLoopB (storeOrder b o) o).2.2.1 } =
              b.buy_orders ++ (limitLoopB (storeOrder b o) o).2.1 := rfl
          rw [hre, List.map_append, hLB]
          exact hN
    | sell =>
      rw [processLimitOrder_sell (storeOrder b o) o hside]
      have hLB : limitLoopS (storeOrder b o) o = matchLoop OrderSide.sell o
          (some (-(o.price.getD 0))) true o.quantity b.buy_orders
          (storeOrder b o).orders_by_id := rfl
      obtain ⟨hA, hU, hN⟩ := loop_preserves_index OrderSide.sell o (some (-(o.price.getD 0)))
        true o.quantity b.buy_orders b.sell_orders (storeOrder b o).orders_by_id
        hib his hnb hns hdisj.symm
      have hAid : ∀ e ∈ (matchLoop OrderSide.sell o (some (-(o.price.getD 0))) true o.quantity
          b.buy_orders (storeOrder b o).orders_by_id).2.1, entryId e ≠ o.order_id :=
        matchLoop_no_id OrderSide.sell o (some (-(o.price.getD 0))) true o.quantity
          b.buy_orders (storeOrder b o).orders_by_id o.order_id hfb
      by_cases hr : 0 < (limitLoopS (storeOrder b o) o).2.2.2
      · rw [if_pos hr]
        constructor
        · intro e he
          rw [restingEntries_recordTrades] at he
          have hre : restingEntries
              { storeOrder b o with
                buy_orders := (limitLoopS (storeOrder b o) o).2.1
                sell_orders := List.orderedInsert entryLe
                  ⟨o.price.getD 0, o.timestamp,
                    { o with quantity := (limitLoopS (storeOrder b o) o).2.2.2 }⟩
                  (storeOrder b o).sell_orders
                orders_by_id := dictSet (limitLoopS (storeOrder b o) o).2.2.1 o.order_id
                  { o with quantity := (limitLoopS (storeOrder b o) o).2.2.2 } } =
              (limitLoopS (storeOrder b o) o).2.1 ++ List.orderedInsert entryLe
                ⟨o.price.getD 0, o.timestamp,
                  { o with quantity := (limitLoopS (storeOrder b o) o).2.2.2 }⟩
                b.sell_orders := rfl
          rw [hre] at he
          have hdict : (recordTrades
              { storeOrder b o with
                buy_orders := (limitLoopS (storeOrder b o) o).2.1
                sell_orders := List.orderedInsert entryLe
                  ⟨o.price.getD 0, o.timestamp,
                    { o with quantity := (limitLoopS (storeOrder b o) o).2.2.2 }⟩
                  (storeOrder b o).sell_orders
                orders_by_id := dictSet (limitLoopS (storeOrder b o) o).2.2.1 o.order_id
                  { o with quantity := (limitLoopS (storeOrder b o) o).2.2.2 } }
              (limitLoopS (storeOrder b o) o).1).orders_by_id =
              dictSet (limitLoopS (storeOrder b o) o).2.2.1 o.order_id
                { o with quantity := (limitLoopS (storeOrder b o) o).2.2.2 } :=
            (recordTrades_fields _ _).2.2
          rw [hdict]
          rcases List.mem_append.mp he with h | h
          · exact dictGet_dictSet_isSome _ _ _ _ (by rw [← hLB] at hA; exact hA e h)
          · rcases (List.mem_orderedInsert entryLe).mp h with rfl | h'
            · exact (by rw [dictGet_dictSet_self]; rfl : (dictGet (dictSet
                (limitLoopS (storeOrder b o) o).2.2.1 o.order_id
                { o with quantity := (limitLoopS (storeOrder b o) o).2.2.2 })
                o.order_id).isSome = true)
            · exact dictGet_dictSet_isSome _ _ _ _ (by rw [← hLB] at hU; exact hU e h')
        · unfold restingIdsNodup
          rw [restingEntries_recordTrades]
          have hre : restingEntries
              { storeOrder b o with
                buy_orders := (limitLoopS (storeOrder b o) o).2.1
                sell_orders := List.orderedInsert entryLe
                  ⟨o.price.getD 0, o.timestamp,
                    { o with quantity := (limitLoopS (storeOrder b o) o).2.2.2 }⟩
                  (storeOrder b o).sell_orders
                orders_by_id := dictSet (limitLoopS (storeOrder b o) o).2.2.1 o.order_id
                  { o with quantity := (limitLoopS (storeOrder b o) o).2.2.2 } } =
              (limitLoopS (storeOrder b o) o).2.1 ++ List.orderedInsert entryLe
                ⟨o.price.getD 0, o.timestamp,
                  { o with quantity := (limitLoopS (storeOrder b o) o).2.2.2 }⟩
                b.sell_orders := rfl
          rw [hre]
          have hperm : ((limitLoopS (storeOrder b o) o).2.1 ++ List.orderedInsert entryLe
              ⟨o.price.getD 0, o.timestamp,
                { o with quantity := (limitLoopS (storeOrder b o) o).2.2.2 }⟩
              b.sell_orders).Perm
              ((⟨o.price.getD 0, o.timestamp,
                { o with quantity := (limitLoopS (storeOrder b o) o).2.2.2 }⟩ : Entry) ::
                (b.sell_orders ++ (limitLoopS (storeOrder b o) o).2.1)) :=
            List.Perm.trans List.perm_append_comm
              ((List.perm_orderedInsert entryLe _ b.sell_orders).append_right _)
          rw [(hperm.map entryId).nodup_iff]
          rw [List.map_cons, List.nodup_cons, List.map_append]
          constructor
          · intro hmem
            rcases List.mem_append.mp hmem with h | h
            · obtain ⟨e, he, hid⟩ := List.mem_map.mp h
              exact hfs e he hid
            · obtain ⟨e, he, hid⟩ := List.mem_map.mp h
              rw [hLB] at he
              exact hAid e he hid
          · rw [hLB]
            exact hN
      · rw [if_neg hr]
        constructor
        · intro e he
          rw [restingEntries_recordTrades] at he
          have hre : restingEntries
              { storeOrder b o with
                buy_orders := (limitLoopS (storeOrder b o) o).2.1
                orders_by_id := (limitLoopS (storeOrder b o) o).2.2.1 } =
              (limitLoopS (storeOrder b o) o).2.1 ++ b.sell_orders := rfl
          rw [hre] at he
          have hdict : (recordTrades
              { storeOrder b o with
                buy_orders := (limitLoopS (storeOrder b o) o).2.1
                orders_by_id := (limitLoopS (storeOrder b o) o).2.2.1 }
              (limitLoopS (storeOrder b o) o).1).orders_by_id =
              (limitLoopS (storeOrder b o) o).2.2.1 := (recordTrades_fields _ _).2.2
          rw [hdict, hLB]
          rw [hLB] at he
          rcases List.mem_append.mp he with h | h
          · exact hA e h
          · exact hU e h
        · unfold restingIdsNodup
          rw [restingEntries_recordTrades]
          have hre : restingEntries
              { storeOrder b o with
                buy_orders := (limitLoopS (storeOrder b o) o).2.1
                orders_by_id := (limitLoopS (storeOrder b o) o).2.2.1 } =
              (limitLoopS (storeOrder b o) o).2.1 ++ b.sell_orders := rfl
          rw [hre, List.map_append, hLB]
          exact (List.perm_append_comm).nodup_iff.mp hN

/-- Witness for `resting_orders_indexed_preserved`: a partially matching
limit buy against the two-sell book. -/
theorem resting_orders_indexed_preserved_witness :
    restingIndexed (addOrder twoSellBook
      ⟨"B9", "c", "AAPL", OrderSide.buy, OrderType.limit, 6, some 10000, 5⟩).1 ∧
    restingIdsNodup (addOrder twoSellBook
      ⟨"B9", "c", "AAPL", OrderSide.buy, OrderType.limit, 6, some 10000, 5⟩).1 :=
  resting_orders_indexed_preserved twoSellBook
    ⟨"B9", "c", "AAPL", OrderSide.buy, OrderType.limit, 6, some 10000, 5⟩
    (by decide) (by decide) (by decide) (by decide)

/-! ### C2 — time priority at equal prices -/

/-- Splitting a list around an element that occurs in neither prefix
determines the prefix uniquely. -/
theorem append_cons_eq_pre {α : Type} (a : α) :
    ∀ (p1 p2 s1 s2 : List α), a ∉ p1 → a ∉ p2 → p1 ++ a :: s1 = p2 ++ a :: s2 → p1 = p2 := by
  intro p1
  induction p1 with
  | nil =>
    intro p2 s1 s2 h1 h2 he
    cases p2 with
    | nil => rfl
    | cons c u =>
      exfalso
      simp only [List.nil_append, List.cons_append] at he
      injection he with h3 h4
      subst h3
      exact h2 (List.mem_cons_self a u)
  | cons b tl ih =>
    intro p2 s1 s2 h1 h2 he
    cases p2 with
    | nil =>
      exfalso
      simp only [List.nil_append, List.cons_append] at he
      injection he with h3 h4
      subst h3
      exact h1 (List.mem_cons_self b tl)
    | cons c u =>
      simp only [List.cons_append] at he
      injection he with h3 h4
      subst h3
      have h1' : a ∉ tl := fun hm => h1 (List.mem_cons_of_mem b hm)
      have h2' : a ∉ u := fun hm => h2 (List.mem_cons_of_mem b hm)
      rw [ih u s1 s2 h1' h2' h4]

/-- C2: for two resting orders on the same (key-ordered, unique-id) side
with equal price, the one with the earlier `timestamp` is always matched
first: in the execution list of any incoming order processed against that
side, every fill whose passive party is the later order is preceded by a
fill of the earlier one. -/
theorem equal_price_time_priority
    (a : OrderSide) (g : Order) (t : Option Int) (n : Bool)
    (rem : Int) (side : List Entry) (dict : Dict)
    (hs : List.Sorted entryLe side) (hn : (side.map entryId).Nodup)
    (e1 e2 : Entry) (h1 : e1 ∈ side) (h2 : e2 ∈ side)
    (hp : e1.price = e2.price) (ht : e1.timestamp < e2.timestamp)
    (pre post : List String)
    (hsplit : (matchLoop a g t n rem side dict).1.map (passiveId a) =
      pre ++ entryId e2 :: post) :
    entryId e1 ∈ pre := by
  obtain ⟨A, B, rfl⟩ := List.append_of_mem h2
  have he1A : e1 ∈ A := by
    rcases List.mem_append.mp h1 with h | h
    · exact h
    · exfalso
      rcases List.mem_cons.mp h with heq | h
      · rw [heq] at ht
        exact lt_irrefl _ ht
      · have hp2 : List.Pairwise entryLe (e2 :: B) := (List.pairwise_append.mp hs).2.1
        have hrel := List.rel_of_sorted_cons hp2 e1 h
        rcases hrel with hlt | ⟨heq, hle⟩
        · rw [hp] at hlt
          exact lt_irrefl _ hlt
        · omega
  have hpre := matchLoop_passive_prefix a g t n rem (A ++ e2 :: B) dict
  rw [hsplit] at hpre
  have hnodup : (pre ++ entryId e2 :: post).Nodup := by
    rw [hpre]
    exact ((List.take_sublist _ _).map entryId).nodup hn
  have he2pre : entryId e2 ∉ pre := by
    rw [List.nodup_append] at hnodup
    exact fun hm => hnodup.2.2 hm (List.mem_cons_self _ _)
  have he2A : entryId e2 ∉ A.map entryId := by
    rw [List.map_append, List.map_cons, List.nodup_append] at hn
    exact fun hm => hn.2.2 hm (List.mem_cons_self _ _)
  obtain ⟨K, hKdef⟩ : ∃ K, (matchLoop a g t n rem (A ++ e2 :: B) dict).1.length = K :=
    ⟨_, rfl⟩
  rw [hKdef] at hpre
  by_cases hlen : K ≤ A.length
  · exfalso
    have hm2 : entryId e2 ∈ (List.take K (A ++ e2 :: B)).map entryId := by
      rw [← hpre]
      exact List.mem_append_right _ (List.mem_cons_self _ _)
    have hsub : List.take K (A ++ e2 :: B) = List.take K A := by
      rw [List.take_append_eq_append_take, Nat.sub_eq_zero_of_le hlen]
      simp
    rw [hsub] at hm2
    obtain ⟨e, he, hid⟩ := List.mem_map.mp hm2
    exact he2A (List.mem_map.mpr ⟨e, (List.take_sublist K A).subset he, hid⟩)
  · push_neg at hlen
    have htk : List.take K (A ++ e2 :: B) =
        A ++ e2 :: List.take (K - A.length - 1) B := by
      rw [List.take_append_eq_append_take, List.take_of_length_le (le_of_lt hlen)]
      congr 1
      have hKA : K - A.length = (K - A.length - 1) + 1 := by omega
      rw [hKA, List.take_succ_cons, Nat.add_sub_cancel]
    rw [htk, List.map_append, List.map_cons] at hpre
    have hpe := append_cons_eq_pre (entryId e2) pre (A.map entryId) post
      ((List.take (K - A.length - 1) B).map entryId) he2pre he2A hpre
    rw [hpe]
    exact List.mem_map_of_mem entryId he1A

/-- Witness for `equal_price_time_priority`: two resting sells at price
100 with timestamps 1 and 2, both consumed by a market buy; the fill of
the later one is preceded by the fill of the earlier one. -/
theorem equal_price_time_priority_witness :
    entryId ⟨100, 1, ⟨"O1", "c", "AAPL", OrderSide.sell, OrderType.limit, 10, some 100, 1⟩⟩ ∈
      ["O1"] :=
  equal_price_time_priority OrderSide.buy
    ⟨"M", "c", "AAPL", OrderSide.buy, OrderType.market, 15, none, 3⟩ none false 15
    [⟨100, 1, ⟨"O1", "c", "AAPL", OrderSide.sell, OrderType.limit, 10, some 100, 1⟩⟩,
     ⟨100, 2, ⟨"O2", "c", "AAPL", OrderSide.sell, OrderType.limit, 5, some 100, 2⟩⟩] []
    (by decide) (by decide)
    ⟨100, 1, ⟨"O1", "c", "AAPL", OrderSide.sell, OrderType.limit, 10, some 100, 1⟩⟩
    ⟨100, 2, ⟨"O2", "c", "AAPL", OrderSide.sell, OrderType.limit, 5, some 100, 2⟩⟩
    (by decide) (by decide) (by decide) (by decide) ["O1"] [] (by decide)

/-! ### C1 — the book is never crossed -/

theorem cancelOrder_not_found (b : Book) (c : Order)
    (h : dictGet b.orders_by_id c.order_id = none) : cancelOrder b c = (b, []) := by
  unfold cancelOrder
  rw [h]

theorem getBestBid_eq (b' : Book) {pb qb : Int} (h : getBestBid b' = some (pb, qb)) :
    ∃ eb tb, b'.buy_orders = eb :: tb ∧ pb = -eb.price := by
  unfold getBestBid at h
  cases hcb : b'.buy_orders with
  | nil =>
    rw [hcb] at h
    exact absurd h (by simp)
  | cons eb tb =>
    rw [hcb] at h
    simp only [Option.some.injEq, Prod.mk.injEq] at h
    exact ⟨eb, tb, rfl, h.1.symm⟩

theorem getBestAsk_eq (b' : Book) {pa qa : Int} (h : getBestAsk b' = some (pa, qa)) :
    ∃ es ts, b'.sell_orders = es :: ts ∧ pa = es.price := by
  unfold getBestAsk at h
  cases hcs : b'.sell_orders with
  | nil =>
    rw [hcs] at h
    exact absurd h (by simp)
  | cons es ts =>
    rw [hcs] at h
    simp only [Option.some.injEq, Prod.mk.injEq] at h
    exact ⟨es, ts, rfl, h.1.symm⟩

/-- On a key-ordered list, the head of any subset-selection has a price
at least that of the head. -/
theorem subset_head_price (l l' : List Entry) (hs : List.Sorted entryLe l)
    (hsub : ∀ e ∈ l', e ∈ l) (e' : Entry) (tl' : List Entry) (hl' : l' = e' :: tl') :
    ∃ e tl, l = e :: tl ∧ e.price ≤ e'.price := by
  have hmem : e' ∈ l := hsub e' (hl' ▸ List.mem_cons_self e' tl')
  cases l with
  | nil => exact absurd hmem (List.not_mem_nil e')
  | cons e tl =>
    refine ⟨e, tl, rfl, ?_⟩
    rcases List.mem_cons.mp hmem with heq | hm
    · rw [heq]
    · exact entryLe_price (List.rel_of_sorted_cons hs e' hm)

/-- The head of the matched side after the loop prices no better than the
head before: the loop consumes from the front of a key-ordered list. -/
theorem matchLoop_head_price (a : OrderSide) (g : Order) (t : Option Int) (n : Bool)
    (rem : Int) (opp : List Entry) (dict : Dict) (hs : List.Sorted entryLe opp)
    (e' : Entry) (tl' : List Entry)
    (hres : (matchLoop a g t n rem opp dict).2.1 = e' :: tl') :
    ∃ e tl, opp = e :: tl ∧ e.price ≤ e'.price := by
  have hmem : e' ∈ (matchLoop a g t n rem opp dict).2.1 :=
    hres ▸ List.mem_cons_self e' tl'
  obtain ⟨e0, he0, hpeq, _, _⟩ := matchLoop_opp_mem a g t n rem opp dict e' hmem
  cases opp with
  | nil => exact absurd he0 (List.not_mem_nil e0)
  | cons e tl =>
    refine ⟨e, tl, rfl, ?_⟩
    have hle : e.price ≤ e0.price := by
      rcases List.mem_cons.mp he0 with heq | hm
      · rw [heq]
      · exact entryLe_price (List.rel_of_sorted_cons hs e0 hm)
    rw [← hpeq] at hle
    exact hle

/-- If the loop exits with a positive remainder under a limit-price
guard, the new best opposite price is strictly beyond the guard. -/
theorem matchLoop_stop_some (a : OrderSide) (g : Order) (c : Int) (n : Bool)
    (rem : Int) (opp : List Entry) (dict : Dict)
    (hrem : 0 < (matchLoop a g (some c) n rem opp dict).2.2.2)
    (e' : Entry) (tl' : List Entry)
    (hres : (matchLoop a g (some c) n rem opp dict).2.1 = e' :: tl') :
    c < e'.price := by
  rcases matchLoop_stop a g (some c) n rem opp dict hrem with hnil | ⟨e, tl, heq, hpo⟩
  · rw [hres] at hnil
    exact absurd hnil (List.cons_ne_nil _ _)
  · rw [hres] at heq
    injection heq with h1 h2
    subst h1
    simp only [priceOk, decide_eq_false_iff_not] at hpo
    exact not_le.mp hpo

theorem orderedInsert_head (x : Entry) (l : List Entry) (hd : Entry) (tl : List Entry)
    (h : List.orderedInsert entryLe x l = hd :: tl) :
    hd = x ∨ ∃ t', l = hd :: t' := by
  cases l with
  | nil =>
    injection h with h1 _
    exact Or.inl h1.symm
  | cons b t =>
    unfold List.orderedInsert at h
    by_cases hc : entryLe x b
    · rw [if_pos hc] at h
      injection h with h1 _
      exact Or.inl h1.symm
    · rw [if_neg hc] at h
      injection h with h1 _
      exact Or.inr ⟨t, by rw [h1]⟩

theorem removeById_sublist (l : List Entry) (id : String) :
    List.Sublist (removeById l id) l := by
  induction l with
  | nil => exact List.Sublist.refl []
  | cons e rest ih =>
    unfold removeById
    by_cases h : e.order.order_id = id
    · rw [if_pos h]
      exact List.sublist_cons_self e rest
    · rw [if_neg h]
      exact ih.cons₂ e

/-- `BookInv` only looks at the side heaps, which the statistics fold
does not touch. -/
theorem BookInv_recordTrades (X : Book) (ts : List Trade) (h : BookInv X) :
    BookInv (recordTrades X ts) := by
  obtain ⟨h1, h2, h3⟩ := h
  refine ⟨?_, ?_, ?_⟩
  · rw [(recordTrades_fields X ts).1]
    exact h1
  · rw [(recordTrades_fields X ts).2.1]
    exact h2
  · intro pb qb pa qa hb ha
    rw [show getBestBid (recordTrades X ts) = getBestBid X from by
      unfold getBestBid; rw [(recordTrades_fields X ts).1]] at hb
    rw [show getBestAsk (recordTrades X ts) = getBestAsk X from by
      unfold getBestAsk; rw [(recordTrades_fields X ts).2.1]] at ha
    exact h3 pb qb pa qa hb ha

theorem inv_limit_buy (b : Book) (o : Order) (hside : o.side = OrderSide.buy)
    (h : BookInv b) : BookInv (processLimitOrder b o).1 := by
  obtain ⟨hsb, hss, hnc⟩ := h
  rw [processLimitOrder_buy b o hside]
  refine BookInv_recordTrades _ _ ?_
  by_cases hr : 0 < (limitLoopB b o).2.2.2
  · rw [if_pos hr]
    refine ⟨?_, ?_, ?_⟩
    · exact List.Sorted.orderedInsert _ _ hsb
    · exact matchLoop_sorted OrderSide.buy o (some (o.price.getD 0)) false o.quantity
        b.sell_orders b.orders_by_id hss
    · intro pb qb pa qa hb ha
      obtain ⟨eb', tb', hbl, rfl⟩ := getBestBid_eq _ hb
      obtain ⟨es', ts', hsl, rfl⟩ := getBestAsk_eq _ ha
      have hbl' : List.orderedInsert entryLe
          ⟨-(o.price.getD 0), o.timestamp, { o with quantity := (limitLoopB b o).2.2.2 }⟩
          b.buy_orders = eb' :: tb' := hbl
      have hsl' : (matchLoop OrderSide.buy o (some (o.price.getD 0)) false o.quantity
          b.sell_orders b.orders_by_id).2.1 = es' :: ts' := hsl
      have hstp := matchLoop_stop_some OrderSide.buy o (o.price.getD 0) false o.quantity
        b.sell_orders b.orders_by_id hr es' ts' hsl'
      rcases orderedInsert_head _ _ _ _ hbl' with heq | ⟨t', hbt⟩
      · rw [heq]
        simpa using hstp
      · obtain ⟨es, ts, hsold, hles⟩ := matchLoop_head_price OrderSide.buy o
          (some (o.price.getD 0)) false o.quantity b.sell_orders b.orders_by_id hss
          es' ts' hsl'
        have hcross := hnc (-eb'.price) eb'.order.quantity es.price es.order.quantity
          (by unfold getBestBid; rw [hbt]) (by unfold getBestAsk; rw [hsold])
        linarith
  · rw [if_neg hr]
    refine ⟨hsb, ?_, ?_⟩
    · exact matchLoop_sorted OrderSide.buy o (some (o.price.getD 0)) false o.quantity
        b.sell_orders b.orders_by_id hss
    · intro pb qb pa qa hb ha
      obtain ⟨eb', tb', hbl, rfl⟩ := getBestBid_eq _ hb
      obtain ⟨es', ts', hsl, rfl⟩ := getBestAsk_eq _ ha
      have hbl' : b.buy_orders = eb' :: tb' := hbl
      have hsl' : (matchLoop OrderSide.buy o (some (o.price.getD 0)) false o.quantity
          b.sell_orders b.orders_by_id).2.1 = es' :: ts' := hsl
      obtain ⟨es, ts, hsold, hles⟩ := matchLoop_head_price OrderSide.buy o
        (some (o.price.getD 0)) false o.quantity b.sell_orders b.orders_by_id hss
        es' ts' hsl'
      have hcross := hnc (-eb'.price) eb'.order.quantity es.price es.order.quantity
        (by unfold getBestBid; rw [hbl']) (by unfold getBestAsk; rw [hsold])
      linarith

theorem inv_limit_sell (b : Book) (o : Order) (hside : o.side = OrderSide.sell)
    (h : BookInv b) : BookInv (processLimitOrder b o).1 := by
  obtain ⟨hsb, hss, hnc⟩ := h
  rw [processLimitOrder_sell b o hside]
  refine BookInv_recordTrades _ _ ?_
  by_cases hr : 0 < (limitLoopS b o).2.2.2
  · rw [if_pos hr]
    refine ⟨?_, ?_, ?_⟩
    · exact matchLoop_sorted OrderSide.sell o (some (-(o.price.getD 0))) true o.quantity
        b.buy_orders b.orders_by_id hsb
    · exact List.Sorted.orderedInsert _ _ hss
    · intro pb qb pa qa hb ha
      obtain ⟨eb', tb', hbl, rfl⟩ := getBestBid_eq _ hb
      obtain ⟨es', ts', hsl, rfl⟩ := getBestAsk_eq _ ha
      have hbl' : (matchLoop OrderSide.sell o (some (-(o.price.getD 0))) true o.quantity
          b.buy_orders b.orders_by_id).2.1 = eb' :: tb' := hbl
      have hsl' : List.orderedInsert entryLe
          ⟨o.price.getD 0, o.timestamp, { o with quantity := (limitLoopS b o).2.2.2 }⟩
          b.sell_orders = es' :: ts' := hsl
      have hstp := matchLoop_stop_some OrderSide.sell o (-(o.price.getD 0)) true o.quantity
        b.buy_orders b.orders_by_id hr eb' tb' hbl'
      rcases orderedInsert_head _ _ _ _ hsl' with heq | ⟨t', hst⟩
      · rw [heq]
        show -eb'.price < o.price.getD 0
        linarith
      · obtain ⟨eb, tb, hbold, hleb⟩ := matchLoop_head_price OrderSide.sell o
          (some (-(o.price.getD 0))) true o.quantity b.buy_orders b.orders_by_id hsb
          eb' tb' hbl'
        have hcross := hnc (-eb.price) eb.order.quantity es'.price es'.order.quantity
          (by unfold getBestBid; rw [hbold]) (by unfold getBestAsk; rw [hst])
        linarith
  · rw [if_neg hr]
    refine ⟨?_, hss, ?_⟩
    · exact matchLoop_sorted OrderSide.sell o (some (-(o.price.getD 0))) true o.quantity
        b.buy_orders b.orders_by_id hsb
    · intro pb qb pa qa hb ha
      obtain ⟨eb', tb', hbl, rfl⟩ := getBestBid_eq _ hb
      obtain ⟨es', ts', hsl, rfl⟩ := getBestAsk_eq _ ha
      have hbl' : (matchLoop OrderSide.sell o (some (-(o.price.getD 0))) true o.quantity
          b.buy_orders b.orders_by_id).2.1 = eb' :: tb' := hbl
      have hsl' : b.sell_orders = es' :: ts' := hsl
      obtain ⟨eb, tb, hbold, hleb⟩ := matchLoop_head_price OrderSide.sell o
        (some (-(o.price.getD 0))) true o.quantity b.buy_orders b.orders_by_id hsb
        eb' tb' hbl'
      have hcross := hnc (-eb.price) eb.order.quantity es'.price es'.order.quantity
        (by unfold getBestBid; rw [hbold]) (by unfold getBestAsk; rw [hsl'])
      linarith

theorem inv_market_buy (b : Book) (o : Order) (hside : o.side = OrderSide.buy)
    (h : BookInv b) : BookInv (processMarketOrder b o).1 := by
  obtain ⟨hsb, hss, hnc⟩ := h
  rw [processMarketOrder_buy b o hside]
  refine BookInv_recordTrades _ _ ⟨hsb, ?_, ?_⟩
  · exact matchLoop_sorted OrderSide.buy o none false o.quantity
      b.sell_orders b.orders_by_id hss
  · intro pb qb pa qa hb ha
    obtain ⟨eb', tb', hbl, rfl⟩ := getBestBid_eq _ hb
    obtain ⟨es', ts', hsl, rfl⟩ := getBestAsk_eq _ ha
    have hbl' : b.buy_orders = eb' :: tb' := hbl
    have hsl' : (matchLoop OrderSide.buy o none false o.quantity
        b.sell_orders b.orders_by_id).2.1 = es' :: ts' := hsl
    obtain ⟨es, ts, hsold, hles⟩ := matchLoop_head_price OrderSide.buy o none false
      o.quantity b.sell_orders b.orders_by_id hss es' ts' hsl'
    have hcross := hnc (-eb'.price) eb'.order.quantity es.price es.order.quantity
      (by unfold getBestBid; rw [hbl']) (by unfold getBestAsk; rw [hsold])
    linarith

theorem inv_market_sell (b : Book) (o : Order) (hside : o.side = OrderSide.sell)
    (h : BookInv b) : BookInv (processMarketOrder b o).1 := by
  obtain ⟨hsb, hss, hnc⟩ := h
  rw [processMarketOrder_sell b o hside]
  refine BookInv_recordTrades _ _ ⟨?_, hss, ?_⟩
  · exact matchLoop_sorted OrderSide.sell o none false o.quantity
      b.buy_orders b.orders_by_id hsb
  · intro pb qb pa qa hb ha
    obtain ⟨eb', tb', hbl, rfl⟩ := getBestBid_eq _ hb
    obtain ⟨es', ts', hsl, rfl⟩ := getBestAsk_eq _ ha
    have hbl' : (matchLoop OrderSide.sell o none false o.quantity
        b.buy_orders b.orders_by_id).2.1 = eb' :: tb' := hbl
    have hsl' : b.sell_orders = es' :: ts' := hsl
    obtain ⟨eb, tb, hbold, hleb⟩ := matchLoop_head_price OrderSide.sell o none false
      o.quantity b.buy_orders b.orders_by_id hsb eb' tb' hbl'
    have hcross := hnc (-eb.price) eb.order.quantity es'.price es'.order.quantity
      (by unfold getBestBid; rw [hbold]) (by unfold getBestAsk; rw [hsl'])
    linarith

theorem inv_cancel (b : Book) (c : Order) (h : BookInv b) :
    BookInv (cancelOrder b c).1 := by
  obtain ⟨hsb, hss, hnc⟩ := h
  cases hd : dictGet b.orders_by_id c.order_id with
  | none =>
    rw [cancelOrder_not_found b c hd]
    exact ⟨hsb, hss, hnc⟩
  | some oc =>
    have hstep : cancelOrder b c =
        (match oc.side with
         | OrderSide.buy =>
           ({ b with buy_orders := removeById b.buy_orders c.order_id,
                     orders_by_id := dictRemove b.orders_by_id c.order_id }, [])
         | OrderSide.sell =>
           ({ b with sell_orders := removeById b.sell_orders c.order_id,
                     orders_by_id := dictRemove b.orders_by_id c.order_id }, [])) := by
      unfold cancelOrder
      rw [hd]
      cases hos2 : oc.side <;> simp [hos2]
    rw [hstep]
    cases hos : oc.side
    · refine ⟨?_, hss, ?_⟩
      · exact List.Pairwise.sublist (removeById_sublist _ _) hsb
      · intro pb qb pa qa hb ha
        obtain ⟨eb', tb', hbl, rfl⟩ := getBestBid_eq _ hb
        obtain ⟨es', ts', hsl, rfl⟩ := getBestAsk_eq _ ha
        have hbl' : removeById b.buy_orders c.order_id = eb' :: tb' := hbl
        have hsl' : b.sell_orders = es' :: ts' := hsl
        obtain ⟨eb, tb, hbold, hleb⟩ := subset_head_price b.buy_orders _ hsb
          (fun e he => (removeById_sublist b.buy_orders c.order_id).subset he)
          eb' tb' hbl'
        have hcross := hnc (-eb.price) eb.order.quantity es'.price es'.order.quantity
          (by unfold getBestBid; rw [hbold]) (by unfold getBestAsk; rw [hsl'])
        linarith
    · refine ⟨hsb, ?_, ?_⟩
      · exact List.Pairwise.sublist (removeById_sublist _ _) hss
      · intro pb qb pa qa hb ha
        obtain ⟨eb', tb', hbl, rfl⟩ := getBestBid_eq _ hb
        obtain ⟨es', ts', hsl, rfl⟩ := getBestAsk_eq _ ha
        have hbl' : b.buy_orders = eb' :: tb' := hbl
        have hsl' : removeById b.sell_orders c.order_id = es' :: ts' := hsl
        obtain ⟨es, ts, hsold, hles⟩ := subset_head_price b.sell_orders _ hss
          (fun e he => (removeById_sublist b.sell_orders c.order_id).subset he)
          es' ts' hsl'
        have hcross := hnc (-eb'.price) eb'.order.quantity es.price es.order.quantity
          (by unfold getBestBid; rw [hbl']) (by unfold getBestAsk; rw [hsold])
        linarith

/-- Every `add_order` call preserves the book invariant. -/
theorem addOrder_preserves_inv (b : Book) (o : Order) (h : BookInv b) :
    BookInv (addOrder b o).1 := by
  by_cases hc : o.order_type = OrderType.cancel
  · have ha : addOrder b o = cancelOrder b o := by
      unfold addOrder
      rw [if_pos hc]
    rw [ha]
    exact inv_cancel b o h
  · by_cases hm : o.order_type = OrderType.market
    · rw [addOrder_market b o hm]
      cases hside : o.side with
      | buy => exact inv_market_buy (storeOrder b o) o hside h
      | sell => exact inv_market_sell (storeOrder b o) o hside h
    · have hl : o.order_type = OrderType.limit := by
        cases hot : o.order_type
        · exact absurd hot hm
        · rfl
        · exact absurd hot hc
      rw [addOrder_limit b o hl]
      cases hside : o.side with
      | buy => exact inv_limit_buy (storeOrder b o) o hside h
      | sell => exact inv_limit_sell (storeOrder b o) o hside h

/-- C1: after any finite sequence of well-formed submissions to an
initially empty book, the book is never crossed: whenever both sides are
non-empty, the best bid price is strictly below the best ask price. -/
theorem book_never_crossed (sym : String) (os : List Order)
    (hw : ∀ o ∈ os, wellFormed o) :
    notCrossed (applyOrders (emptyBook sym) os) := by
  have hstep : ∀ (os' : List Order) (b : Book), BookInv b → BookInv (applyOrders b os') := by
    intro os'
    induction os' with
    | nil => exact fun b hb => hb
    | cons o rest ih => exact fun b hb => ih _ (addOrder_preserves_inv b o hb)
  have hempty : BookInv (emptyBook sym) := by
    refine ⟨List.sorted_nil, List.sorted_nil, ?_⟩
    intro pb qb pa qa hb _
    exact absurd hb (by simp [getBestBid, emptyBook])
  exact (hstep os (emptyBook sym) hempty).2.2

/-- Witness for `book_never_crossed`: a sell resting at 151 and a partial
crossing buy at 151 leave bid 151 absent resp. ask above any bid. -/
theorem book_never_crossed_witness :
    notCrossed (applyOrders (emptyBook "AAPL")
      [⟨"S1", "c1", "AAPL", OrderSide.sell, OrderType.limit, 10, some 15100, 1⟩,
       ⟨"B1", "c2", "AAPL", OrderSide.buy, OrderType.limit, 4, some 15000, 2⟩,
       ⟨"B2", "c2", "AAPL", OrderSide.buy, OrderType.limit, 12, some 15100, 3⟩]) :=
  book_never_crossed "AAPL"
    [⟨"S1", "c1", "AAPL", OrderSide.sell, OrderType.limit, 10, some 15100, 1⟩,
     ⟨"B1", "c2", "AAPL", OrderSide.buy, OrderType.limit, 4, some 15000, 2⟩,
     ⟨"B2", "c2", "AAPL", OrderSide.buy, OrderType.limit, 12, some 15100, 3⟩]
    (by decide)

/-! ### C10 — cancellation is a pure removal -/

/-- C10: for every book state and every CANCEL request, `add_order`
returns the empty execution list and leaves `trades`, `total_volume`,
`total_trades` (and the client log and symbol) unchanged; only the side
heaps and the id-index may change. -/
theorem cancel_frame (b : Book) (o : Order) (h : o.order_type = OrderType.cancel) :
    (addOrder b o).2 = [] ∧
    (addOrder b o).1.trades = b.trades ∧
    (addOrder b o).1.total_volume = b.total_volume ∧
    (addOrder b o).1.total_trades = b.total_trades ∧
    (addOrder b o).1.client_orders = b.client_orders ∧
    (addOrder b o).1.symbol = b.symbol := by
  unfold addOrder
  rw [if_pos h]
  unfold cancelOrder
  cases hd : dictGet b.orders_by_id o.order_id with
  | none => exact ⟨rfl, rfl, rfl, rfl, rfl, rfl⟩
  | some oc => cases hos : oc.side <;> simp [hos]

/-- Witness for `cancel_frame` at a concrete cancel request. -/
theorem cancel_frame_witness :
    (addOrder (emptyBook "AAPL")
      ⟨"X", "c", "AAPL", OrderSide.buy, OrderType.cancel, 1, none, 0⟩).2 = [] :=
  (cancel_frame (emptyBook "AAPL")
    ⟨"X", "c", "AAPL", OrderSide.buy, OrderType.cancel, 1, none, 0⟩ rfl).1

/-! ### C8 — cancellation is idempotent -/

/-- C8: cancelling the same id twice leaves the book exactly as one
cancellation does; the second call finds nothing (it takes the not-found
branch of order_book.py:281) and returns the empty list. -/
theorem cancel_idempotent (b : Book) (c : Order)
    (hk : (b.orders_by_id.map Prod.fst).Nodup)
    (hc : c.order_type = OrderType.cancel) :
    (addOrder (addOrder b c).1 c).1 = (addOrder b c).1 ∧
    (addOrder (addOrder b c).1 c).2 = [] ∧
    dictGet (addOrder b c).1.orders_by_id c.order_id = none := by
  have ha : ∀ b' : Book, addOrder b' c = cancelOrder b' c := fun b' => by
    unfold addOrder
    rw [if_pos hc]
  simp only [ha]
  cases hd : dictGet b.orders_by_id c.order_id with
  | none =>
    have h1 : cancelOrder b c = (b, []) := cancelOrder_not_found b c hd
    rw [h1]
    exact ⟨by rw [h1], by rw [h1], hd⟩
  | some oc =>
    have hdict : (cancelOrder b c).1.orders_by_id = dictRemove b.orders_by_id c.order_id := by
      unfold cancelOrder
      rw [hd]
      cases hos : oc.side <;> simp [hos]
    have h2 : dictGet (cancelOrder b c).1.orders_by_id c.order_id = none := by
      rw [hdict]
      exact dictGet_dictRemove_self _ _ hk
    have h3 : cancelOrder (cancelOrder b c).1 c = ((cancelOrder b c).1, []) :=
      cancelOrder_not_found _ _ h2
    rw [h3]
    exact ⟨rfl, rfl, h2⟩

/-- Witness for `cancel_idempotent` on a book with two resting sells. -/
theorem cancel_idempotent_witness :
    (addOrder (addOrder twoSellBook
        ⟨"S1", "c", "AAPL", OrderSide.sell, OrderType.cancel, 0, none, 9⟩).1
      ⟨"S1", "c", "AAPL", OrderSide.sell, OrderType.cancel, 0, none, 9⟩).1 =
    (addOrder twoSellBook
      ⟨"S1", "c", "AAPL", OrderSide.sell, OrderType.cancel, 0, none, 9⟩).1 :=
  (cancel_idempotent twoSellBook
    ⟨"S1", "c", "AAPL", OrderSide.sell, OrderType.cancel, 0, none, 9⟩ (by decide) rfl).1

/-! ### C4 — best-of-book quotes -/

/-- C4 counterexample: with two resting sells of quantities 5 and 7 at the
same best price 10000, `get_best_ask` reports quantity 5 (the single
top-of-heap order) while the claimed aggregation over the best price level
yields 12. -/
theorem best_ask_aggregation_cex :
    getBestAsk twoSellBook = some (10000, 5) ∧
    specBestAsk twoSellBook = some (10000, 12) ∧
    getBestAsk twoSellBook ≠ specBestAsk twoSellBook := by decide

/-- C4 amended: on a book whose sides are key-ordered, `get_best_bid` /
`get_best_ask` return `none` on an empty side, and otherwise the best
price of the side together with the quantity of the single
highest-priority resting order there (not an aggregate). -/
theorem best_quote_head_entry (b : Book)
    (hb : List.Sorted entryLe b.buy_orders) (hs : List.Sorted entryLe b.sell_orders) :
    (b.sell_orders = [] → getBestAsk b = none) ∧
    (b.buy_orders = [] → getBestBid b = none) ∧
    (∀ e rest, b.sell_orders = e :: rest →
      getBestAsk b = some (e.price, e.order.quantity) ∧
        ∀ e2 ∈ b.sell_orders, e.price ≤ e2.price) ∧
    (∀ e rest, b.buy_orders = e :: rest →
      getBestBid b = some (-e.price, e.order.quantity) ∧
        ∀ e2 ∈ b.buy_orders, -e2.price ≤ -e.price) := by
  refine ⟨?_, ?_, ?_, ?_⟩
  · intro h
    unfold getBestAsk
    rw [h]
  · intro h
    unfold getBestBid
    rw [h]
  · intro e rest h
    refine ⟨by unfold getBestAsk; rw [h], ?_⟩
    intro e2 he2
    rw [h] at he2 hs
    rcases List.mem_cons.mp he2 with rfl | hm
    · exact le_refl _
    · exact entryLe_price (List.rel_of_sorted_cons hs e2 hm)
  · intro e rest h
    refine ⟨by unfold getBestBid; rw [h], ?_⟩
    intro e2 he2
    rw [h] at he2 hb
    rcases List.mem_cons.mp he2 with rfl | hm
    · exact le_refl _
    · exact neg_le_neg (entryLe_price (List.rel_of_sorted_cons hb e2 hm))

/-- Witness for `best_quote_head_entry` on the two-sell book. -/
theorem best_quote_head_entry_witness :
    getBestAsk twoSellBook = some (10000, 5) ∧
    ∀ e2 ∈ twoSellBook.sell_orders, (10000 : Int) ≤ e2.price :=
  (best_quote_head_entry twoSellBook (by decide) (by decide)).2.2.1
    ⟨10000, 1, ⟨"S1", "c1", "AAPL", OrderSide.sell, OrderType.limit, 5, some 10000, 1⟩⟩
    [⟨10000, 2, ⟨"S2", "c2", "AAPL", OrderSide.sell, OrderType.limit, 7, some 10000, 2⟩⟩]
    (by decide)

/-! ### C5 — the id-index is not a bijection onto resting orders -/

/-- C5 counterexample: after a single MARKET order on an empty book, both
sides are empty but `orders_by_id` still holds the market order's id, so
the index is not a bijection onto the resting orders. -/
theorem id_index_bijection_cex : ¬ idIndexBijective marketOnlyBook := by
  intro h
  rcases (h "M1").mp (by decide) with ⟨e, he, _⟩
  have hre : restingEntries marketOnlyBook = [] := by decide
  rw [hre] at he
  exact List.not_mem_nil e he

/-! ### C6 — heap insertion can raise on a priority-key collision -/

/-- C6: matching is not failure-free on well-formed input.  A well-formed
limit sell resting at price 15000 with timestamp 7 (left conjunct: the
book state the source reaches), followed by a second well-formed limit
sell with the same price and timestamp, makes the `heappush` of
order_book.py:265 compare two tuples that agree on price and timestamp;
the comparison falls through to the unorderable `Order` dataclass and
raises `TypeError` (middle conjunct).  With distinct timestamps the same
push succeeds (right conjunct). -/
theorem heappush_equal_key_raises :
    (applyOrders (emptyBook "AAPL") [tieSell1]).sell_orders = [⟨15000, 7, tieSell1⟩] ∧
    heappushPy [⟨15000, 7, tieSell1⟩] ⟨15000, 7, tieSell2⟩ = Except.error () ∧
    heappushPy [⟨15000, 7, tieSell1⟩] ⟨15000, 8, tieSell2⟩ =
      Except.ok [⟨15000, 7, tieSell1⟩, ⟨15000, 8, tieSell2⟩] :=
  ⟨by decide, rfl, rfl⟩

/-! ### C9 — ingress validation -/

/-- C9 counterexample: the parser accepts a LIMIT request with quantity 0
and a LIMIT request with negative price, instead of rejecting them. -/
theorem parse_accepts_nonpositive_cex :
    parseOrder zeroQtyReq =
      Except.ok ⟨"uuid4", "c", "AAPL", OrderSide.buy, OrderType.limit, 0, some 10000, 0⟩ ∧
    parseOrder negPriceReq =
      Except.ok ⟨"X", "c", "AAPL", OrderSide.sell, OrderType.limit, 3, some (-100), 0⟩ :=
  ⟨rfl, rfl⟩

/-- C9 amended: `_parse_order` accepts a request exactly when the five
required fields are present and `side` / `order_type` are valid enum
values (case-insensitively); the quantity is passed through unchecked —
zero and negative quantities (and non-positive limit prices) reach the
matcher. -/
theorem parse_order_validation (d : RequestData) :
    ((∃ o, parseOrder d = Except.ok o) ↔
      (requiredOk d = true ∧
        (parseSide (pyUpper (d.side.getD ""))).isSome = true ∧
        (parseType (pyUpper (d.order_type.getD ""))).isSome = true)) ∧
    (∀ o, parseOrder d = Except.ok o → o.quantity = d.quantity.getD 0) := by
  obtain ⟨oid, cid, sym, sd, ot, q, pr⟩ := d
  rcases cid with _ | cv <;> rcases sym with _ | sv <;> rcases sd with _ | dv <;>
      rcases ot with _ | tv <;> rcases q with _ | qv <;>
    simp [parseOrder, requiredOk]
  rcases hps : parseSide (pyUpper dv) with _ | side <;>
      rcases hpt : parseType (pyUpper tv) with _ | ty <;>
    simp [hps, hpt]

/-- Witness for `parse_order_validation`: the zero-quantity request is
accepted. -/
theorem parse_order_validation_witness :
    ∃ o, parseOrder zeroQtyReq = Except.ok o :=
  (parse_order_validation zeroQtyReq).1.mpr (by decide)

end HftBook
